import Mathlib

/-!
Shallow embedding of the entropy conditioning pipeline of
src/src/brf_entropy.c (rtl-entropy, bladeRF port).

The embedding models the per-sample-byte processing loop of main
(brf_entropy.c lines 402-471) together with the helper store_hash_data
(lines 199-216).  Machine bytes are Nat values below 256; the fixed C
arrays bitbuffer, bitbuffer_old and hash_data_buffer are modelled as
total functions from byte index to byte value so that the out-of-range
write admitted by the buffer-full comparison at line 427 is observable.
External collaborators (the FIPS health-test battery from fips.h, SHA512
and the AES stream encryption from OpenSSL and util.c, none of which are
under src/) enter as parameters of a configuration record or as
spec-modelled functions.
-/

set_option linter.unusedVariables false

namespace BrfEntropy

/-- Modelled from the spec: defines.h is not under src/.  BLOCK_BYTES
(called BUFFER_SIZE in the source) is 2500 bytes, matching the comment
at brf_entropy.c line 428, which says a full buffer holds 2500 bytes of
entropy (the FIPS 140-2 test block of 20000 bits). -/
def BUFFER_SIZE : Nat := 2500

/-- SHA512_DIGEST_LENGTH from openssl/sha.h: 64 bytes. -/
def SHA512_DIGEST_LENGTH : Nat := 64

/-- Modelled from the spec: fips.h is not under src/.  The health test
battery has five named sub-tests, each with a distinct verdict bit. -/
def N_FIPS_TESTS : Nat := 5

/-- Modelled from the spec: fips_test_mask from fips.h (not under src/);
sub-test t owns verdict bit t. -/
def fips_test_mask (t : Nat) : Nat := 1 <<< t

/-- Configuration and external collaborators fixed at startup.
fips is the external stateful Health Test Battery, represented by the
verdict it returns for the k-th submitted block (0 = pass, nonzero =
bitmask of failed sub-tests); sha512 is the external SHA512 digest. -/
structure Cfg where
  encryption : Bool
  detach : Bool
  fips : Nat → Nat
  sha512 : List Nat → List Nat

/-- The mutable program state of the pipeline.  The fields bitbuffer,
bitbuffer_old, hash_data_buffer, bitcounter, buffercounter,
hash_data_counter, hash_data_bit_counter and hash_loop are the globals
of brf_entropy.c (lines 74-84).  out records the byte chunks written by
fwrite, logs records the indices of failed sub-tests reported via
log_line, and fipsIndex counts calls to fips_run_rng_test.  emitted,
discarded and accepted are observation fields for specification
purposes: the debiased bits sent towards the accumulator, the bits sent
to the discard pool, and the blocks that passed the health test. -/
@[ext]
structure RtlState where
  bitbuffer : Nat → Nat
  bitbuffer_old : Nat → Nat
  hash_data_buffer : Nat → Nat
  bitcounter : Nat
  buffercounter : Nat
  hash_data_counter : Nat
  hash_data_bit_counter : Nat
  hash_loop : Nat
  out : List (List Nat)
  logs : List Nat
  fipsIndex : Nat
  emitted : List Nat
  discarded : List Nat
  accepted : List (List Nat)

/-- Initial state: all buffers zeroed, all counters zero (C globals are
zero initialized, brf_entropy.c lines 74-84). -/
def initState : RtlState where
  bitbuffer := fun _ => 0
  bitbuffer_old := fun _ => 0
  hash_data_buffer := fun _ => 0
  bitcounter := 0
  buffercounter := 0
  hash_data_counter := 0
  hash_data_bit_counter := 0
  hash_loop := 0
  out := []
  logs := []
  fipsIndex := 0
  emitted := []
  discarded := []
  accepted := []

/-- store_hash_data (brf_entropy.c lines 199-216): store one bit in the
discard pool ring buffer, advancing the bit cursor, carrying into the
byte cursor every 8 bits, and setting hash_loop once the byte cursor
completes a wrap of all SHA512_DIGEST_LENGTH positions. -/
def store_hash_data (bit : Nat) (st : RtlState) : RtlState :=
  let c := st.hash_data_counter
  let k := st.hash_data_bit_counter
  let buf : Nat → Nat := fun i =>
    if i = c then
      if bit ≠ 0 then st.hash_data_buffer c ||| (1 <<< k)
      else st.hash_data_buffer c &&& (255 ^^^ (1 <<< k))
    else st.hash_data_buffer i
  let k1 := k + 1
  let k2 := if k1 = 8 then 0 else k1
  let c1 := if k1 = 8 then c + 1 else c
  if c1 = SHA512_DIGEST_LENGTH then
    { st with hash_data_buffer := buf, hash_data_bit_counter := k2,
              hash_data_counter := 0, hash_loop := 1 }
  else
    { st with hash_data_buffer := buf, hash_data_bit_counter := k2,
              hash_data_counter := c1 }

/-- Modelled from the spec: the keystream of the stream-cipher-style
symmetric encryption (aes_init and aes_encrypt live in util.c, which is
not under src/), obtained by cycling the key bytes. -/
def aes_keystream (key : List Nat) (n : Nat) : List Nat :=
  (List.range n).map (fun i => key.getD (i % key.length) 0)

/-- Modelled from the spec: stream-cipher-style symmetric encryption of
a byte sequence under a key (util.c is not under src/). -/
def aes_encrypt_model (key m : List Nat) : List Nat :=
  List.zipWith (fun a b => a ^^^ b) m (aes_keystream key m.length)

/-- Modelled from the spec: the matching symmetric decryption. -/
def aes_decrypt_model (key m : List Nat) : List Nat :=
  List.zipWith (fun a b => a ^^^ b) m (aes_keystream key m.length)

/-- The BUFFER_SIZE bytes of the bit accumulator, as tested by the
health battery, encrypted, or XOR-combined (fips_run_rng_test and the
conditioning paths all read exactly BUFFER_SIZE bytes of bitbuffer). -/
def blockChunk (st : RtlState) : List Nat :=
  (List.range BUFFER_SIZE).map st.bitbuffer

/-- The BUFFER_SIZE bytes of bitbuffer_old, as written by fwrite in the
whitening path (brf_entropy.c line 453). -/
def oldChunk (st : RtlState) : List Nat :=
  (List.range BUFFER_SIZE).map st.bitbuffer_old

/-- The SHA512_DIGEST_LENGTH bytes of the discard pool, as hashed by
SHA512 in the encrypted path (brf_entropy.c line 435). -/
def hashChunk (st : RtlState) : List Nat :=
  (List.range SHA512_DIGEST_LENGTH).map st.hash_data_buffer

/-- One debias step (brf_entropy.c lines 404-418) for the 2-bit window
at bit offset j of sample byte b: if the two bits differ, store the
lower-indexed bit ch into the bit accumulator (a 1 is ORed in, a 0
leaves the buffer untouched) and advance the bit cursor; if they are
equal, send ch to the discard pool instead. -/
def debias_bits (ch ch2 : Nat) (st : RtlState) : RtlState :=
  if ch ≠ ch2 then
    let st1 :=
      if ch ≠ 0 then
        { st with
            bitbuffer := fun i =>
              if i = st.buffercounter then st.bitbuffer i ||| (1 <<< st.bitcounter)
              else st.bitbuffer i,
            emitted := st.emitted ++ [ch] }
      else { st with emitted := st.emitted ++ [ch] }
    { st1 with bitcounter := st1.bitcounter + 1 }
  else
    store_hash_data ch { st with discarded := st.discarded ++ [ch] }

/-- The debias step applied to the 2-bit window at bit offset j of
sample byte b (ch and ch2 of brf_entropy.c lines 404-405). -/
def debias_window (b j : Nat) (st : RtlState) : RtlState :=
  debias_bits ((b >>> j) &&& 1) ((b >>> (j + 1)) &&& 1) st

/-- Byte-full check (brf_entropy.c lines 421-424): once 8 bits are in
the current byte, advance the byte cursor and reset the bit cursor. -/
def byte_full_check (st : RtlState) : RtlState :=
  if st.bitcounter ≥ 8 then
    { st with buffercounter := st.buffercounter + 1, bitcounter := 0 }
  else st

/-- Buffer-full check (brf_entropy.c lines 427-469).  Note the source
comparison is buffercounter > BUFFER_SIZE, not >=.  On trigger: run the
health test; on pass either encrypt (only when hash_loop is set) or
whiten (XOR with bitbuffer_old over BUFFER_SIZE bytes, fwrite the old
block, then copy the XORed block into bitbuffer_old; the C code reuses
buffercounter as the XOR loop variable, which the final reset
overwrites with 0 in either case); on fail report each failed sub-test
unless running detached, with the reporting loop leaving the window
loop variable j at N_FIPS_TESTS.  Finally memset bitbuffer (its
declared BUFFER_SIZE bytes) to zero and reset buffercounter.  Returns
the updated state together with the value of j after the body. -/
def buffer_full_check (cfg : Cfg) (j : Nat) (st : RtlState) : RtlState × Nat :=
  if st.buffercounter > BUFFER_SIZE then
    let fips_result := cfg.fips st.fipsIndex
    let st := { st with fipsIndex := st.fipsIndex + 1 }
    let p :=
      if fips_result = 0 then
        let st := { st with accepted := st.accepted ++ [blockChunk st] }
        if cfg.encryption then
          if st.hash_loop ≠ 0 then
            let key := cfg.sha512 (hashChunk st)
            let ct := aes_encrypt_model key (blockChunk st)
            ({ st with out := st.out ++ [ct] }, j)
          else (st, j)
        else
          let st := { st with
            bitbuffer := fun i =>
              if i < BUFFER_SIZE then st.bitbuffer i ^^^ st.bitbuffer_old i
              else st.bitbuffer i }
          let st := { st with out := st.out ++ [oldChunk st] }
          let st := { st with
            bitbuffer_old := fun i =>
              if i < BUFFER_SIZE then st.bitbuffer i else st.bitbuffer_old i }
          (st, j)
      else
        let newLogs :=
          if cfg.detach then []
          else (List.range N_FIPS_TESTS).filter
            (fun t => fips_result &&& fips_test_mask t ≠ 0)
        ({ st with logs := st.logs ++ newLogs }, N_FIPS_TESTS)
    let st := p.1
    let st := { st with
      bitbuffer := fun i => if i < BUFFER_SIZE then 0 else st.bitbuffer i,
      buffercounter := 0 }
    (st, p.2)
  else (st, j)

/-- One full window step: debias, byte-full check, buffer-full check
(the two checks run after every window, brf_entropy.c lines 402-469). -/
def window_step (cfg : Cfg) (b j : Nat) (st : RtlState) : RtlState × Nat :=
  buffer_full_check cfg j (byte_full_check (debias_window b j st))

/-- The inner window loop, for (j = 0; j < 6; j += 2), with j also
updated by the failure-reporting loop inside the body.  The loop runs at
most three times (j never decreases and gains at least 2 per
iteration), so fuel 3 from j = 0 reproduces the C loop exactly. -/
def process_windows : Nat → Cfg → Nat → Nat → RtlState → RtlState
  | 0, _, _, _, st => st
  | fuel + 1, cfg, b, j, st =>
    if j < 6 then
      let p := window_step cfg b j st
      process_windows fuel cfg b (p.2 + 2) p.1
    else st

/-- Process one raw sample byte (body of the loop at line 402). -/
def process_byte (cfg : Cfg) (b : Nat) (st : RtlState) : RtlState :=
  process_windows 3 cfg b 0 st

/-- Process a stream of raw sample bytes. -/
def run (cfg : Cfg) (input : List Nat) (st : RtlState) : RtlState :=
  input.foldl (fun s b => process_byte cfg b s) st

/-- Feed a sequence of bits to the discard pool. -/
def hashRun (bits : List Nat) (st : RtlState) : RtlState :=
  bits.foldl (fun s b => store_hash_data b s) st

/-- Following the spec of the Bias Extractor: the three non-overlapping
2-bit windows (bit0,bit1), (bit2,bit3), (bit4,bit5) of the 6
least-significant bits of a raw sample byte. -/
def specWindows (b : Nat) : List (Nat × Nat) :=
  [((b >>> 0) &&& 1, (b >>> 1) &&& 1),
   ((b >>> 2) &&& 1, (b >>> 3) &&& 1),
   ((b >>> 4) &&& 1, (b >>> 5) &&& 1)]

/-- Following the spec: the debiased bits a sample byte contributes, in
window order, one bit (the lower-indexed one) per window whose two bits
differ and none for an equal window. -/
def keptBits (b : Nat) : List Nat :=
  (specWindows b).foldr (fun w acc => (if w.1 = w.2 then [] else [w.1]) ++ acc) []

/-- Following the spec: the bits a sample byte sends to the discard
pool, in window order, one per window whose two bits are equal. -/
def discardBits (b : Nat) : List Nat :=
  (specWindows b).foldr (fun w acc => (if w.1 = w.2 then [w.1] else []) ++ acc) []

/-- Bytewise XOR of two byte sequences. -/
def xorBytes (x y : List Nat) : List Nat :=
  List.zipWith (fun a b => a ^^^ b) x y

/-- XOR of a list of blocks, starting from the all-zero block. -/
def xorBlocks (blocks : List (List Nat)) : List Nat :=
  blocks.foldl xorBytes (List.replicate BUFFER_SIZE 0)

/-- The chunk sequence the whitening mode actually delivers: for the
i-th accepted block, the XOR of all earlier accepted blocks (so the
first chunk is the all-zero block and output lags by one block). -/
def whitenScan (blocks : List (List Nat)) : List (List Nat) :=
  (List.range blocks.length).map (fun i => xorBlocks (blocks.take i))

/-- The accumulator invariant: the bit cursor is inside a byte, the byte
cursor is at most BUFFER_SIZE, every declared buffer byte strictly
beyond the byte cursor is zero, and in the cursor byte every bit at or
beyond the bit cursor is zero. -/
def ZeroInv (st : RtlState) : Prop :=
  st.bitcounter < 8 ∧ st.buffercounter ≤ BUFFER_SIZE ∧
  (∀ i, i < BUFFER_SIZE → st.buffercounter < i → st.bitbuffer i = 0) ∧
  (st.buffercounter < BUFFER_SIZE → st.bitbuffer st.buffercounter < 2 ^ st.bitcounter)

/-- The whitening-mode delivery invariant: the delivered chunks are the
XOR-scan of the accepted blocks, and bitbuffer_old holds the XOR of all
accepted blocks so far. -/
def WhitenInv (st : RtlState) : Prop :=
  st.out = whitenScan st.accepted ∧ oldChunk st = xorBlocks st.accepted

/-- The encrypted-mode output invariant: the priming flag is boolean,
and while it is unset nothing has been written to the output. -/
def EncOutInv (st : RtlState) : Prop :=
  (st.hash_loop = 0 ∨ st.hash_loop = 1) ∧ (st.hash_loop = 0 → st.out = [])

/-- A whitening-mode configuration whose health battery always passes. -/
def passWhitenCfg : Cfg :=
  ⟨false, false, fun _ => 0, fun _ => List.replicate SHA512_DIGEST_LENGTH 0⟩

/-- An encrypted-mode configuration whose health battery always passes. -/
def passEncryptCfg : Cfg :=
  ⟨true, false, fun _ => 0, fun _ => List.replicate SHA512_DIGEST_LENGTH 0⟩

/-- A detached whitening-mode configuration whose health battery always
fails sub-test 0 (verdict bitmask 1). -/
def failDetachCfg : Cfg := ⟨false, true, fun _ => 1, fun _ => []⟩

/-- An attached whitening-mode configuration whose health battery always
fails sub-tests 0 and 2 (verdict bitmask 5). -/
def failLogCfg : Cfg := ⟨false, false, fun _ => 5, fun _ => []⟩

/-- The combined effect of a discarded (equal-bits) window with value 1
on the state: the bit goes to the pool and to the discarded trace. -/
def discardStep (st : RtlState) : RtlState :=
  store_hash_data 1 { st with discarded := st.discarded ++ [1] }

/-- The bit accumulator contents after k consecutive 1 bits have been
stored from a reset buffer: full bytes of 255 below the byte cursor, a
partial byte of k mod 8 low one-bits at the cursor, zero above. -/
def buf15 (k : Nat) : Nat → Nat := fun i =>
  if i < k / 8 then 255 else if i = k / 8 then 2 ^ (k % 8) - 1 else 0

/-- The state after 6669 bytes of 0x15 from startup: 20007 one-bits
accumulated, the cursor sits on the last bit of the out-of-range byte
BUFFER_SIZE. -/
def pre21 : RtlState :=
  { initState with
      bitbuffer := buf15 20007,
      bitcounter := 7,
      buffercounter := 2500,
      emitted := List.replicate 20007 1 }

/-- The state after 6669 bytes of 0x2A from startup: 20007 zero-bits
accumulated, the buffer still all zero. -/
def pre42 : RtlState :=
  { initState with
      bitcounter := 7,
      buffercounter := 2500,
      emitted := List.replicate 20007 0 }

/-- The state after 6670 bytes of 0x2A from startup in encrypted mode
with an all-pass battery: one block accepted while the pool was
unprimed, nothing delivered, the next block already two bits under way. -/
def mid3 : RtlState :=
  { pre42 with
      bitbuffer := fun i => if i < BUFFER_SIZE then 0 else pre42.bitbuffer i,
      bitcounter := 2,
      buffercounter := 0,
      fipsIndex := 1,
      emitted := pre42.emitted ++ [0, 0, 0],
      accepted := pre42.accepted ++ [blockChunk pre42] }

/-- A state whose byte cursor has just passed the block boundary with
the pool primed, as reached inside the encrypted delivery path. -/
def encWitState : RtlState :=
  { initState with buffercounter := BUFFER_SIZE + 1, hash_loop := 1 }

/-- A state whose byte cursor has just passed the block boundary, as
reached when the health test is about to run. -/
def failWitState : RtlState :=
  { initState with buffercounter := BUFFER_SIZE + 1 }

/-! ### Projection lemmas for the elementary steps -/

@[simp]
lemma store_hash_data_bitcounter (bit : Nat) (st : RtlState) :
    (store_hash_data bit st).bitcounter = st.bitcounter := by
  simp only [store_hash_data]; split <;> split <;> rfl

@[simp]
lemma store_hash_data_buffercounter (bit : Nat) (st : RtlState) :
    (store_hash_data bit st).buffercounter = st.buffercounter := by
  simp only [store_hash_data]; split <;> split <;> rfl

@[simp]
lemma store_hash_data_bitbuffer (bit : Nat) (st : RtlState) :
    (store_hash_data bit st).bitbuffer = st.bitbuffer := by
  simp only [store_hash_data]; split <;> split <;> rfl

@[simp]
lemma store_hash_data_bitbuffer_old (bit : Nat) (st : RtlState) :
    (store_hash_data bit st).bitbuffer_old = st.bitbuffer_old := by
  simp only [store_hash_data]; split <;> split <;> rfl

@[simp]
lemma store_hash_data_out (bit : Nat) (st : RtlState) :
    (store_hash_data bit st).out = st.out := by
  simp only [store_hash_data]; split <;> split <;> rfl

@[simp]
lemma store_hash_data_logs (bit : Nat) (st : RtlState) :
    (store_hash_data bit st).logs = st.logs := by
  simp only [store_hash_data]; split <;> split <;> rfl

@[simp]
lemma store_hash_data_fipsIndex (bit : Nat) (st : RtlState) :
    (store_hash_data bit st).fipsIndex = st.fipsIndex := by
  simp only [store_hash_data]; split <;> split <;> rfl

@[simp]
lemma store_hash_data_emitted (bit : Nat) (st : RtlState) :
    (store_hash_data bit st).emitted = st.emitted := by
  simp only [store_hash_data]; split <;> split <;> rfl

@[simp]
lemma store_hash_data_discarded (bit : Nat) (st : RtlState) :
    (store_hash_data bit st).discarded = st.discarded := by
  simp only [store_hash_data]; split <;> split <;> rfl

@[simp]
lemma store_hash_data_accepted (bit : Nat) (st : RtlState) :
    (store_hash_data bit st).accepted = st.accepted := by
  simp only [store_hash_data]; split <;> split <;> rfl

/-- The discard-pool cursors and priming flag follow the count of bits
stored so far: after n bits the bit cursor is n mod 8, the byte cursor
is (n / 8) mod 64, and hash_loop is set exactly from the 512th bit on
(8 times SHA512_DIGEST_LENGTH bits is one full wrap). -/
lemma store_hash_data_counters (bit n : Nat) (st : RtlState)
    (hc : st.hash_data_counter = (n / 8) % 64)
    (hk : st.hash_data_bit_counter = n % 8)
    (hl : st.hash_loop = if 512 ≤ n then 1 else 0) :
    (store_hash_data bit st).hash_data_counter = ((n + 1) / 8) % 64 ∧
    (store_hash_data bit st).hash_data_bit_counter = (n + 1) % 8 ∧
    (store_hash_data bit st).hash_loop = if 512 ≤ n + 1 then 1 else 0 := by
  by_cases h8 : n % 8 + 1 = 8
  · by_cases h64 : n / 8 % 64 + 1 = 64
    · simp only [store_hash_data, SHA512_DIGEST_LENGTH, hc, hk, if_pos h8, if_pos h64]
      refine ⟨by omega, by omega, ?_⟩
      rw [if_pos (show 512 ≤ n + 1 by omega)]
    · simp only [store_hash_data, SHA512_DIGEST_LENGTH, hc, hk, if_pos h8, if_neg h64]
      refine ⟨by omega, by omega, ?_⟩
      rw [hl]
      by_cases hx : 512 ≤ n
      · rw [if_pos hx, if_pos (show 512 ≤ n + 1 by omega)]
      · rw [if_neg hx, if_neg (show ¬512 ≤ n + 1 by omega)]
  · have h64 : ¬n / 8 % 64 = 64 := by omega
    simp only [store_hash_data, SHA512_DIGEST_LENGTH, hc, hk, if_neg h8, if_neg h64]
    refine ⟨by omega, by omega, ?_⟩
    rw [hl]
    by_cases hx : 512 ≤ n
    · rw [if_pos hx, if_pos (show 512 ≤ n + 1 by omega)]
    · rw [if_neg hx, if_neg (show ¬512 ≤ n + 1 by omega)]

/-- Counter characterization along a whole discard-bit sequence. -/
lemma hashRun_counters (bits : List Nat) : ∀ (st : RtlState) (n : Nat),
    st.hash_data_counter = (n / 8) % 64 →
    st.hash_data_bit_counter = n % 8 →
    st.hash_loop = (if 512 ≤ n then 1 else 0) →
    (hashRun bits st).hash_data_counter = ((n + bits.length) / 8) % 64 ∧
    (hashRun bits st).hash_data_bit_counter = (n + bits.length) % 8 ∧
    (hashRun bits st).hash_loop = if 512 ≤ n + bits.length then 1 else 0 := by
  induction bits with
  | nil => intro st n hc hk hl; simpa [hashRun] using ⟨hc, hk, hl⟩
  | cons b bs ih =>
    intro st n hc hk hl
    have hstep := store_hash_data_counters b n st hc hk hl
    have h2 := ih (store_hash_data b st) (n + 1) hstep.1 hstep.2.1 hstep.2.2
    simp only [hashRun, List.foldl_cons, List.length_cons] at h2 ⊢
    have harith : n + 1 + bs.length = n + (bs.length + 1) := by omega
    rw [harith] at h2
    exact h2

/-- store_hash_data never clears hash_loop. -/
lemma store_hash_data_hash_loop_mono (bit : Nat) (st : RtlState)
    (h : st.hash_loop = 1) : (store_hash_data bit st).hash_loop = 1 := by
  simp only [store_hash_data]
  split <;> split <;> first | rfl | exact h

@[simp]
lemma byte_full_check_hash_loop (st : RtlState) :
    (byte_full_check st).hash_loop = st.hash_loop := by
  simp only [byte_full_check]; split <;> rfl

@[simp]
lemma buffer_full_check_hash_loop (cfg : Cfg) (j : Nat) (st : RtlState) :
    (buffer_full_check cfg j st).1.hash_loop = st.hash_loop := by
  simp only [buffer_full_check]
  repeat' split
  all_goals rfl

lemma debias_window_hash_loop_mono (b j : Nat) (st : RtlState)
    (h : st.hash_loop = 1) : (debias_window b j st).hash_loop = 1 := by
  simp only [debias_window, debias_bits]
  split
  · split <;> exact h
  · exact store_hash_data_hash_loop_mono _ _ h

lemma window_step_hash_loop_mono (cfg : Cfg) (b j : Nat) (st : RtlState)
    (h : st.hash_loop = 1) : (window_step cfg b j st).1.hash_loop = 1 := by
  simp only [window_step, buffer_full_check_hash_loop, byte_full_check_hash_loop]
  exact debias_window_hash_loop_mono b j st h

lemma process_windows_hash_loop_mono (fuel : Nat) : ∀ (cfg : Cfg) (b j : Nat)
    (st : RtlState), st.hash_loop = 1 →
    (process_windows fuel cfg b j st).hash_loop = 1 := by
  induction fuel with
  | zero => intro cfg b j st h; exact h
  | succ n ih =>
    intro cfg b j st h
    simp only [process_windows]
    split
    · exact ih cfg b _ _ (window_step_hash_loop_mono cfg b j st h)
    · exact h

lemma process_byte_hash_loop_mono (cfg : Cfg) (b : Nat) (st : RtlState)
    (h : st.hash_loop = 1) : (process_byte cfg b st).hash_loop = 1 :=
  process_windows_hash_loop_mono 3 cfg b 0 st h

lemma run_hash_loop_mono (cfg : Cfg) (input : List Nat) : ∀ (st : RtlState),
    st.hash_loop = 1 → (run cfg input st).hash_loop = 1 := by
  induction input with
  | nil => intro st h; exact h
  | cons b bs ih =>
    intro st h
    simpa [run, List.foldl_cons] using
      ih (process_byte cfg b st) (process_byte_hash_loop_mono cfg b st h)

/-- Evaluating the debias step on a (0,1) window. -/
lemma debias_bits_01 (st : RtlState) :
    debias_bits 0 1 st =
      { st with bitcounter := st.bitcounter + 1, emitted := st.emitted ++ [0] } := by
  simp only [debias_bits]
  rw [if_pos (show (0 : Nat) ≠ 1 by decide)]
  rw [if_neg (show ¬((0 : Nat) ≠ 0) by decide)]

/-- Evaluating the debias step on a (1,0) window. -/
lemma debias_bits_10 (st : RtlState) :
    debias_bits 1 0 st =
      { st with
          bitbuffer := fun i =>
            if i = st.buffercounter then st.bitbuffer i ||| (1 <<< st.bitcounter)
            else st.bitbuffer i,
          bitcounter := st.bitcounter + 1,
          emitted := st.emitted ++ [1] } := by
  simp only [debias_bits]
  rw [if_pos (show (1 : Nat) ≠ 0 by decide)]
  rw [if_pos (show (1 : Nat) ≠ 0 by decide)]

/-- Evaluating the debias step on an equal window. -/
lemma debias_bits_same (v : Nat) (st : RtlState) :
    debias_bits v v st =
      store_hash_data v { st with discarded := st.discarded ++ [v] } := by
  simp only [debias_bits]
  rw [if_neg (show ¬(v ≠ v) from fun h => h rfl)]

/-! ### Window-step characterizations

The next lemmas compute the effect of one full window step (debias,
byte-full check, buffer-full check) in each of the situations the claims
need: a window emitting a 0 bit, a window emitting a 1 bit, a window
whose two bits are equal (discard), and the block-completing windows. -/

/-- A window whose bits are (0,1) emits a 0 bit: only the cursors and
the emitted trace change, provided the block is not completed. -/
lemma window_step_emit0 (cfg : Cfg) (b j : Nat) (st : RtlState)
    (hb1 : (b >>> j) &&& 1 = 0) (hb2 : (b >>> (j + 1)) &&& 1 = 1)
    (h1 : st.bitcounter < 8)
    (h3 : 8 * st.buffercounter + st.bitcounter + 1 < 8 * (BUFFER_SIZE + 1)) :
    window_step cfg b j st =
      ({ st with
          bitcounter := (8 * st.buffercounter + st.bitcounter + 1) % 8,
          buffercounter := (8 * st.buffercounter + st.bitcounter + 1) / 8,
          emitted := st.emitted ++ [0] }, j) := by
  have hbs : BUFFER_SIZE = 2500 := rfl
  simp only [window_step, debias_window, hb1, hb2, debias_bits_01]
  by_cases hbit : st.bitcounter = 7
  · have e1 : (8 * st.buffercounter + st.bitcounter + 1) % 8 = 0 := by omega
    have e2 : (8 * st.buffercounter + st.bitcounter + 1) / 8 = st.buffercounter + 1 := by
      omega
    rw [e1, e2]
    simp only [byte_full_check]
    try dsimp only
    rw [if_pos (show st.bitcounter + 1 ≥ 8 by omega)]
    simp only [buffer_full_check]
    try dsimp only
    rw [if_neg (show ¬st.buffercounter + 1 > BUFFER_SIZE by omega)]
  · have e1 : (8 * st.buffercounter + st.bitcounter + 1) % 8 = st.bitcounter + 1 := by
      omega
    have e2 : (8 * st.buffercounter + st.bitcounter + 1) / 8 = st.buffercounter := by
      omega
    rw [e1, e2]
    simp only [byte_full_check]
    try dsimp only
    rw [if_neg (show ¬st.bitcounter + 1 ≥ 8 by omega)]
    simp only [buffer_full_check]
    try dsimp only
    rw [if_neg (show ¬st.buffercounter > BUFFER_SIZE by omega)]

/-- A window whose bits are (1,0) emits a 1 bit: the bit is ORed into
the cursor position and the cursors advance, provided the block is not
completed. -/
lemma window_step_emit1 (cfg : Cfg) (b j : Nat) (st : RtlState)
    (hb1 : (b >>> j) &&& 1 = 1) (hb2 : (b >>> (j + 1)) &&& 1 = 0)
    (h1 : st.bitcounter < 8)
    (h3 : 8 * st.buffercounter + st.bitcounter + 1 < 8 * (BUFFER_SIZE + 1)) :
    window_step cfg b j st =
      ({ st with
          bitbuffer := fun i =>
            if i = st.buffercounter then st.bitbuffer i ||| (1 <<< st.bitcounter)
            else st.bitbuffer i,
          bitcounter := (8 * st.buffercounter + st.bitcounter + 1) % 8,
          buffercounter := (8 * st.buffercounter + st.bitcounter + 1) / 8,
          emitted := st.emitted ++ [1] }, j) := by
  have hbs : BUFFER_SIZE = 2500 := rfl
  simp only [window_step, debias_window, hb1, hb2, debias_bits_10]
  by_cases hbit : st.bitcounter = 7
  · have e1 : (8 * st.buffercounter + st.bitcounter + 1) % 8 = 0 := by omega
    have e2 : (8 * st.buffercounter + st.bitcounter + 1) / 8 = st.buffercounter + 1 := by
      omega
    rw [e1, e2]
    simp only [byte_full_check]
    try dsimp only
    rw [if_pos (show st.bitcounter + 1 ≥ 8 by omega)]
    simp only [buffer_full_check]
    try dsimp only
    rw [if_neg (show ¬st.buffercounter + 1 > BUFFER_SIZE by omega)]
  · have e1 : (8 * st.buffercounter + st.bitcounter + 1) % 8 = st.bitcounter + 1 := by
      omega
    have e2 : (8 * st.buffercounter + st.bitcounter + 1) / 8 = st.buffercounter := by
      omega
    rw [e1, e2]
    simp only [byte_full_check]
    try dsimp only
    rw [if_neg (show ¬st.bitcounter + 1 ≥ 8 by omega)]
    simp only [buffer_full_check]
    try dsimp only
    rw [if_neg (show ¬st.buffercounter > BUFFER_SIZE by omega)]

/-- A window whose two bits are both v sends v to the discard pool and
leaves the accumulator alone. -/
lemma window_step_discard (cfg : Cfg) (b j v : Nat) (st : RtlState)
    (hb1 : (b >>> j) &&& 1 = v) (hb2 : (b >>> (j + 1)) &&& 1 = v)
    (h1 : st.bitcounter < 8) (h2 : st.buffercounter ≤ BUFFER_SIZE) :
    window_step cfg b j st =
      (store_hash_data v { st with discarded := st.discarded ++ [v] }, j) := by
  simp only [window_step, debias_window, hb1, hb2, debias_bits_same]
  simp only [byte_full_check, store_hash_data_bitcounter]
  try dsimp only
  rw [if_neg (show ¬st.bitcounter ≥ 8 by omega)]
  simp only [buffer_full_check, store_hash_data_buffercounter]
  rw [if_neg (show ¬st.buffercounter > BUFFER_SIZE by omega)]

/-! ### Buffer-full path characterizations -/

/-- The full-block path on a failing health verdict: nothing is written
to the output, the failing sub-tests are reported only when not
detached, the buffer and byte cursor are reset, and the window loop
variable is left at N_FIPS_TESTS by the reporting loop. -/
lemma buffer_full_fail (cfg : Cfg) (j : Nat) (st : RtlState)
    (ht : st.buffercounter > BUFFER_SIZE) (hf : cfg.fips st.fipsIndex ≠ 0) :
    buffer_full_check cfg j st =
      ({ st with
          bitbuffer := fun i => if i < BUFFER_SIZE then 0 else st.bitbuffer i,
          buffercounter := 0,
          fipsIndex := st.fipsIndex + 1,
          logs := st.logs ++
            (if cfg.detach then []
             else (List.range N_FIPS_TESTS).filter
               (fun t => cfg.fips st.fipsIndex &&& fips_test_mask t ≠ 0)) },
        N_FIPS_TESTS) := by
  simp only [buffer_full_check]
  rw [if_pos ht, if_neg hf]

/-- The full-block path on a passing verdict in whitening mode: the
block is recorded as accepted, the buffer is XORed with bitbuffer_old,
the previous bitbuffer_old chunk is written to the output, the XORed
block is retained as the new bitbuffer_old, and the buffer is reset. -/
lemma buffer_full_pass_whiten (cfg : Cfg) (j : Nat) (st : RtlState)
    (ht : st.buffercounter > BUFFER_SIZE) (hf : cfg.fips st.fipsIndex = 0)
    (he : cfg.encryption = false) :
    buffer_full_check cfg j st =
      ({ st with
          bitbuffer := fun i => if i < BUFFER_SIZE then 0 else st.bitbuffer i,
          bitbuffer_old := fun i =>
            if i < BUFFER_SIZE then st.bitbuffer i ^^^ st.bitbuffer_old i
            else st.bitbuffer_old i,
          buffercounter := 0,
          out := st.out ++ [oldChunk st],
          fipsIndex := st.fipsIndex + 1,
          accepted := st.accepted ++ [blockChunk st] }, j) := by
  simp only [buffer_full_check]
  rw [if_pos ht, if_pos hf, he]
  simp only [Bool.false_eq_true, if_false, Prod.mk.injEq]
  refine ⟨?_, trivial⟩
  apply RtlState.ext <;>
    first
      | rfl
      | (funext i; by_cases hi : i < BUFFER_SIZE <;> simp [hi])

/-- The full-block path on a passing verdict in encrypted mode with the
pool not yet primed: the block is recorded as accepted but nothing is
written to the output; the buffer is simply reset. -/
lemma buffer_full_pass_enc_unprimed (cfg : Cfg) (j : Nat) (st : RtlState)
    (ht : st.buffercounter > BUFFER_SIZE) (hf : cfg.fips st.fipsIndex = 0)
    (he : cfg.encryption = true) (hl : st.hash_loop = 0) :
    buffer_full_check cfg j st =
      ({ st with
          bitbuffer := fun i => if i < BUFFER_SIZE then 0 else st.bitbuffer i,
          buffercounter := 0,
          fipsIndex := st.fipsIndex + 1,
          accepted := st.accepted ++ [blockChunk st] }, j) := by
  simp only [buffer_full_check]
  rw [if_pos ht, if_pos hf, he]
  simp only [if_true]
  rw [if_neg (show ¬st.hash_loop ≠ 0 by rw [hl]; decide)]
  rfl

/-- The full-block path on a passing verdict in encrypted mode with the
pool primed: the block is recorded as accepted and its encryption under
the SHA512 hash of the current pool contents is written out; the buffer
is reset. -/
lemma buffer_full_pass_enc_primed (cfg : Cfg) (j : Nat) (st : RtlState)
    (ht : st.buffercounter > BUFFER_SIZE) (hf : cfg.fips st.fipsIndex = 0)
    (he : cfg.encryption = true) (hl : st.hash_loop ≠ 0) :
    buffer_full_check cfg j st =
      ({ st with
          bitbuffer := fun i => if i < BUFFER_SIZE then 0 else st.bitbuffer i,
          buffercounter := 0,
          out := st.out ++
            [aes_encrypt_model (cfg.sha512 (hashChunk st)) (blockChunk st)],
          fipsIndex := st.fipsIndex + 1,
          accepted := st.accepted ++ [blockChunk st] }, j) := by
  simp only [buffer_full_check]
  rw [if_pos ht, if_pos hf, he]
  simp only [if_true]
  rw [if_pos hl]
  rfl

/-! ### Block-completing window characterizations -/

/-- A (0,1) window that fills the last byte of the block in whitening
mode with a passing verdict: the byte cursor transiently reaches
BUFFER_SIZE + 1, the whitening path runs, and the cursors reset. -/
lemma window_step_trigger0_whiten (cfg : Cfg) (b j : Nat) (st : RtlState)
    (hb1 : (b >>> j) &&& 1 = 0) (hb2 : (b >>> (j + 1)) &&& 1 = 1)
    (hc7 : st.bitcounter = 7) (hcb : st.buffercounter = BUFFER_SIZE)
    (hf : cfg.fips st.fipsIndex = 0) (he : cfg.encryption = false) :
    window_step cfg b j st =
      ({ st with
          bitbuffer := fun i => if i < BUFFER_SIZE then 0 else st.bitbuffer i,
          bitbuffer_old := fun i =>
            if i < BUFFER_SIZE then st.bitbuffer i ^^^ st.bitbuffer_old i
            else st.bitbuffer_old i,
          bitcounter := 0,
          buffercounter := 0,
          out := st.out ++ [oldChunk st],
          fipsIndex := st.fipsIndex + 1,
          emitted := st.emitted ++ [0],
          accepted := st.accepted ++ [blockChunk st] }, j) := by
  simp only [window_step, debias_window, hb1, hb2, debias_bits_01]
  simp only [byte_full_check]
  try dsimp only
  rw [if_pos (show st.bitcounter + 1 ≥ 8 by omega)]
  rw [buffer_full_pass_whiten _ _ _ (by dsimp only; rw [hcb]; decide)
    (by dsimp only; exact hf) he]
  rfl

/-- A (0,1) window that fills the last byte of the block in encrypted
mode, pool not primed, passing verdict: the block is accepted but not
delivered, and the cursors reset. -/
lemma window_step_trigger0_enc_unprimed (cfg : Cfg) (b j : Nat) (st : RtlState)
    (hb1 : (b >>> j) &&& 1 = 0) (hb2 : (b >>> (j + 1)) &&& 1 = 1)
    (hc7 : st.bitcounter = 7) (hcb : st.buffercounter = BUFFER_SIZE)
    (hf : cfg.fips st.fipsIndex = 0) (he : cfg.encryption = true)
    (hl : st.hash_loop = 0) :
    window_step cfg b j st =
      ({ st with
          bitbuffer := fun i => if i < BUFFER_SIZE then 0 else st.bitbuffer i,
          bitcounter := 0,
          buffercounter := 0,
          fipsIndex := st.fipsIndex + 1,
          emitted := st.emitted ++ [0],
          accepted := st.accepted ++ [blockChunk st] }, j) := by
  simp only [window_step, debias_window, hb1, hb2, debias_bits_01]
  simp only [byte_full_check]
  try dsimp only
  rw [if_pos (show st.bitcounter + 1 ≥ 8 by omega)]
  rw [buffer_full_pass_enc_unprimed _ _ _ (by dsimp only; rw [hcb]; decide)
    (by dsimp only; exact hf) he (by dsimp only; exact hl)]
  rfl

/-- A (0,1) window that fills the last byte of the block in encrypted
mode, pool primed, passing verdict: the block is accepted, encrypted
under the SHA512 hash of the current pool, delivered, and the cursors
reset. -/
lemma window_step_trigger0_enc_primed (cfg : Cfg) (b j : Nat) (st : RtlState)
    (hb1 : (b >>> j) &&& 1 = 0) (hb2 : (b >>> (j + 1)) &&& 1 = 1)
    (hc7 : st.bitcounter = 7) (hcb : st.buffercounter = BUFFER_SIZE)
    (hf : cfg.fips st.fipsIndex = 0) (he : cfg.encryption = true)
    (hl : st.hash_loop ≠ 0) :
    window_step cfg b j st =
      ({ st with
          bitbuffer := fun i => if i < BUFFER_SIZE then 0 else st.bitbuffer i,
          bitcounter := 0,
          buffercounter := 0,
          out := st.out ++
            [aes_encrypt_model (cfg.sha512 (hashChunk st)) (blockChunk st)],
          fipsIndex := st.fipsIndex + 1,
          emitted := st.emitted ++ [0],
          accepted := st.accepted ++ [blockChunk st] }, j) := by
  simp only [window_step, debias_window, hb1, hb2, debias_bits_01]
  simp only [byte_full_check]
  try dsimp only
  rw [if_pos (show st.bitcounter + 1 ≥ 8 by omega)]
  rw [buffer_full_pass_enc_primed _ _ _ (by dsimp only; rw [hcb]; decide)
    (by dsimp only; exact hf) he (by dsimp only; exact hl)]
  rfl

/-- A (0,1) window that fills the last byte of the block when the
verdict fails: nothing is delivered, the failing sub-tests are logged
only when not detached, the cursors reset, and the window loop variable
is clobbered to N_FIPS_TESTS, skipping the rest of the sample byte. -/
lemma window_step_trigger0_fail (cfg : Cfg) (b j : Nat) (st : RtlState)
    (hb1 : (b >>> j) &&& 1 = 0) (hb2 : (b >>> (j + 1)) &&& 1 = 1)
    (hc7 : st.bitcounter = 7) (hcb : st.buffercounter = BUFFER_SIZE)
    (hf : cfg.fips st.fipsIndex ≠ 0) :
    window_step cfg b j st =
      ({ st with
          bitbuffer := fun i => if i < BUFFER_SIZE then 0 else st.bitbuffer i,
          bitcounter := 0,
          buffercounter := 0,
          fipsIndex := st.fipsIndex + 1,
          emitted := st.emitted ++ [0],
          logs := st.logs ++
            (if cfg.detach then []
             else (List.range N_FIPS_TESTS).filter
               (fun t => cfg.fips st.fipsIndex &&& fips_test_mask t ≠ 0)) },
        N_FIPS_TESTS) := by
  simp only [window_step, debias_window, hb1, hb2, debias_bits_01]
  simp only [byte_full_check]
  try dsimp only
  rw [if_pos (show st.bitcounter + 1 ≥ 8 by omega)]
  rw [buffer_full_fail _ _ _ (by dsimp only; rw [hcb]; decide)
    (by dsimp only; exact hf)]

/-- A (1,0) window that fills the last byte of the block in whitening
mode with a passing verdict: the final 1 bit is ORed in, the block
(including the write at index BUFFER_SIZE) is accepted, the whitening
path runs, and the cursors reset. -/
lemma window_step_trigger1_whiten (cfg : Cfg) (b j : Nat) (st : RtlState)
    (hb1 : (b >>> j) &&& 1 = 1) (hb2 : (b >>> (j + 1)) &&& 1 = 0)
    (hc7 : st.bitcounter = 7) (hcb : st.buffercounter = BUFFER_SIZE)
    (hf : cfg.fips st.fipsIndex = 0) (he : cfg.encryption = false) :
    window_step cfg b j st =
      ({ st with
          bitbuffer := fun i =>
            if i < BUFFER_SIZE then 0
            else if i = st.buffercounter then st.bitbuffer i ||| (1 <<< st.bitcounter)
            else st.bitbuffer i,
          bitbuffer_old := fun i =>
            if i < BUFFER_SIZE then
              (if i = st.buffercounter then st.bitbuffer i ||| (1 <<< st.bitcounter)
               else st.bitbuffer i) ^^^ st.bitbuffer_old i
            else st.bitbuffer_old i,
          bitcounter := 0,
          buffercounter := 0,
          out := st.out ++ [oldChunk st],
          fipsIndex := st.fipsIndex + 1,
          emitted := st.emitted ++ [1],
          accepted := st.accepted ++
            [(List.range BUFFER_SIZE).map (fun i =>
              if i = st.buffercounter then st.bitbuffer i ||| (1 <<< st.bitcounter)
              else st.bitbuffer i)] }, j) := by
  simp only [window_step, debias_window, hb1, hb2, debias_bits_10]
  simp only [byte_full_check]
  try dsimp only
  rw [if_pos (show st.bitcounter + 1 ≥ 8 by omega)]
  rw [buffer_full_pass_whiten _ _ _ (by dsimp only; rw [hcb]; decide)
    (by dsimp only; exact hf) he]
  rfl

/-! ### Whole-byte characterizations for the scenario inputs -/

lemma process_windows_succ (fuel : Nat) (cfg : Cfg) (b j : Nat) (st : RtlState)
    (hj : j < 6) :
    process_windows (fuel + 1) cfg b j st =
      process_windows fuel cfg b ((window_step cfg b j st).2 + 2)
        (window_step cfg b j st).1 := by
  simp only [process_windows]
  rw [if_pos hj]

lemma process_windows_zero (cfg : Cfg) (b j : Nat) (st : RtlState) :
    process_windows 0 cfg b j st = st := rfl

lemma process_windows_exit (fuel : Nat) (cfg : Cfg) (b j : Nat) (st : RtlState)
    (hj : ¬j < 6) :
    process_windows (fuel + 1) cfg b j st = st := by
  simp only [process_windows]
  rw [if_neg hj]

/-- ORing the next 1 bit into the canonical all-ones accumulator: the
cursor byte gains its next low bit. -/
lemma buf15_step (k : Nat) :
    (fun i => if i = k / 8 then buf15 k i ||| (1 <<< (k % 8)) else buf15 k i) =
      buf15 (k + 1) := by
  have hor : ∀ m : Nat, m < 8 → (2 ^ m - 1) ||| (1 <<< m) = 2 ^ (m + 1) - 1 := by
    intro m hm
    interval_cases m <;> decide
  funext i
  by_cases hi : i = k / 8
  · subst hi
    rw [if_pos rfl]
    simp only [buf15]
    rw [if_neg (show ¬k / 8 < k / 8 by omega)]
    simp only [if_true]
    by_cases h7 : k % 8 = 7
    · rw [if_pos (show k / 8 < (k + 1) / 8 by omega)]
      rw [h7]
      decide
    · rw [if_neg (show ¬k / 8 < (k + 1) / 8 by omega),
        if_pos (show k / 8 = (k + 1) / 8 by omega)]
      rw [show (k + 1) % 8 = k % 8 + 1 by omega]
      exact hor (k % 8) (by omega)
  · rw [if_neg hi]
    simp only [buf15]
    by_cases hlt : i < k / 8
    · rw [if_pos hlt, if_pos (show i < (k + 1) / 8 by omega)]
    · rw [if_neg hlt, if_neg (show ¬i = k / 8 from hi)]
      by_cases h7 : k % 8 = 7
      · by_cases hi1 : i = (k + 1) / 8
        · rw [if_neg (show ¬i < (k + 1) / 8 by omega), if_pos hi1]
          rw [show (k + 1) % 8 = 0 by omega]
          decide
        · rw [if_neg (show ¬i < (k + 1) / 8 by omega), if_neg hi1]
      · rw [if_neg (show ¬i < (k + 1) / 8 by omega),
          if_neg (show ¬i = (k + 1) / 8 by omega)]

/-- A 0x2A sample byte (windows (0,1),(0,1),(0,1)) processed without
completing the block: the cursors advance by three bits and three 0
bits are emitted; nothing else changes. -/
lemma process_byte_42 (cfg : Cfg) (k : Nat) (st : RtlState)
    (hbit : st.bitcounter = k % 8) (hbc : st.buffercounter = k / 8)
    (h3 : k + 3 < 8 * (BUFFER_SIZE + 1)) :
    process_byte cfg 42 st =
      { st with
          bitcounter := (k + 3) % 8,
          buffercounter := (k + 3) / 8,
          emitted := st.emitted ++ [0, 0, 0] } := by
  simp only [process_byte]
  rw [process_windows_succ _ _ _ _ _ (by decide)]
  rw [window_step_emit0 cfg 42 0 st (by decide) (by decide) (by omega) (by omega)]
  dsimp only
  rw [hbit, hbc]
  rw [show 8 * (k / 8) + k % 8 + 1 = k + 1 by omega]
  rw [process_windows_succ _ _ _ _ _ (by decide)]
  rw [window_step_emit0 cfg 42 (0 + 2) _ (by decide) (by decide)
    (by dsimp only; omega) (by dsimp only; omega)]
  dsimp only
  rw [show 8 * ((k + 1) / 8) + (k + 1) % 8 + 1 = k + 2 by omega]
  rw [process_windows_succ _ _ _ _ _ (by decide)]
  rw [window_step_emit0 cfg 42 (0 + 2 + 2) _ (by decide) (by decide)
    (by dsimp only; omega) (by dsimp only; omega)]
  dsimp only
  rw [show 8 * ((k + 2) / 8) + (k + 2) % 8 + 1 = k + 3 by omega]
  rw [process_windows_zero]
  apply RtlState.ext <;> dsimp only <;> first | rfl | simp

/-- A 0x15 sample byte (windows (1,0),(1,0),(1,0)) processed without
completing the block, on the canonical all-ones accumulator: the
cursors advance by three bits, three 1 bits are emitted and stored. -/
lemma process_byte_21 (cfg : Cfg) (k : Nat) (st : RtlState)
    (hbit : st.bitcounter = k % 8) (hbc : st.buffercounter = k / 8)
    (hbb : st.bitbuffer = buf15 k)
    (h3 : k + 3 < 8 * (BUFFER_SIZE + 1)) :
    process_byte cfg 21 st =
      { st with
          bitbuffer := buf15 (k + 3),
          bitcounter := (k + 3) % 8,
          buffercounter := (k + 3) / 8,
          emitted := st.emitted ++ [1, 1, 1] } := by
  simp only [process_byte]
  rw [process_windows_succ _ _ _ _ _ (by decide)]
  rw [window_step_emit1 cfg 21 0 st (by decide) (by decide) (by omega) (by omega)]
  dsimp only
  rw [hbit, hbc, hbb]
  rw [show 8 * (k / 8) + k % 8 + 1 = k + 1 by omega]
  rw [buf15_step k]
  rw [process_windows_succ _ _ _ _ _ (by decide)]
  rw [window_step_emit1 cfg 21 (0 + 2) _ (by decide) (by decide)
    (by dsimp only; omega) (by dsimp only; omega)]
  dsimp only
  rw [show 8 * ((k + 1) / 8) + (k + 1) % 8 + 1 = k + 2 by omega]
  rw [buf15_step (k + 1)]
  rw [process_windows_succ _ _ _ _ _ (by decide)]
  rw [window_step_emit1 cfg 21 (0 + 2 + 2) _ (by decide) (by decide)
    (by dsimp only; omega) (by dsimp only; omega)]
  dsimp only
  rw [show 8 * ((k + 2) / 8) + (k + 2) % 8 + 1 = k + 3 by omega]
  rw [buf15_step (k + 2)]
  rw [process_windows_zero]
  apply RtlState.ext <;> dsimp only <;> first | rfl | simp

/-- A 0x3F sample byte (windows (1,1),(1,1),(1,1)): three 1 bits go to
the discard pool and the accumulator is untouched. -/
lemma process_byte_63 (cfg : Cfg) (st : RtlState)
    (hbit : st.bitcounter < 8) (hbc : st.buffercounter ≤ BUFFER_SIZE) :
    process_byte cfg 63 st = discardStep (discardStep (discardStep st)) := by
  simp only [process_byte]
  rw [process_windows_succ _ _ _ _ _ (by decide)]
  rw [window_step_discard cfg 63 0 1 st (by decide) (by decide) hbit hbc]
  dsimp only
  rw [process_windows_succ _ _ _ _ _ (by decide)]
  rw [window_step_discard cfg 63 (0 + 2) 1 _ (by decide) (by decide)
    (by simp [discardStep, hbit]) (by simp [discardStep, hbc])]
  dsimp only
  rw [process_windows_succ _ _ _ _ _ (by decide)]
  rw [window_step_discard cfg 63 (0 + 2 + 2) 1 _ (by decide) (by decide)
    (by simp [discardStep, hbit]) (by simp [discardStep, hbc])]
  dsimp only
  rw [process_windows_zero]
  rfl

/-! ### Run-level characterizations for the scenario inputs -/

lemma run_cons (cfg : Cfg) (b : Nat) (bs : List Nat) (st : RtlState) :
    run cfg (b :: bs) st = run cfg bs (process_byte cfg b st) := rfl

lemma run_append (cfg : Cfg) (xs ys : List Nat) (st : RtlState) :
    run cfg (xs ++ ys) st = run cfg ys (run cfg xs st) := by
  simp [run, List.foldl_append]

/-- A stream of 0x2A bytes with no block completion: the cursors track
the emitted-bit count and three 0 bits are emitted per byte. -/
lemma run_42 (cfg : Cfg) (m : Nat) : ∀ (k : Nat) (st : RtlState),
    st.bitcounter = k % 8 → st.buffercounter = k / 8 →
    k + 3 * m < 8 * (BUFFER_SIZE + 1) →
    run cfg (List.replicate m 42) st =
      { st with
          bitcounter := (k + 3 * m) % 8,
          buffercounter := (k + 3 * m) / 8,
          emitted := st.emitted ++ List.replicate (3 * m) 0 } := by
  induction m with
  | zero =>
    intro k st hbit hbc h3
    simp only [List.replicate, run, List.foldl_nil]
    apply RtlState.ext <;> (try dsimp only) <;> first | rfl | omega | simp
  | succ n ih =>
    intro k st hbit hbc h3
    rw [List.replicate_succ, run_cons]
    rw [process_byte_42 cfg k st hbit hbc (by omega)]
    rw [ih (k + 3) _ rfl rfl (by omega)]
    apply RtlState.ext <;> (try dsimp only) <;>
      first
        | rfl
        | omega
        | (rw [List.append_assoc, show 3 * (n + 1) = 3 + 3 * n by ring,
            List.replicate_add]
           rfl)

/-- A stream of 0x15 bytes from the zeroed accumulator with no block
completion: the accumulator holds the canonical all-ones pattern and
three 1 bits are emitted per byte. -/
lemma run_21 (cfg : Cfg) (m : Nat) : ∀ (k : Nat) (st : RtlState),
    st.bitcounter = k % 8 → st.buffercounter = k / 8 → st.bitbuffer = buf15 k →
    k + 3 * m < 8 * (BUFFER_SIZE + 1) →
    run cfg (List.replicate m 21) st =
      { st with
          bitbuffer := buf15 (k + 3 * m),
          bitcounter := (k + 3 * m) % 8,
          buffercounter := (k + 3 * m) / 8,
          emitted := st.emitted ++ List.replicate (3 * m) 1 } := by
  induction m with
  | zero =>
    intro k st hbit hbc hbb h3
    simp only [List.replicate, run, List.foldl_nil]
    apply RtlState.ext <;> (try dsimp only) <;>
      first
        | rfl
        | omega
        | (rw [hbb]; try simp)
        | simp
  | succ n ih =>
    intro k st hbit hbc hbb h3
    rw [List.replicate_succ, run_cons]
    rw [process_byte_21 cfg k st hbit hbc hbb (by omega)]
    rw [ih (k + 3) _ rfl rfl rfl (by omega)]
    apply RtlState.ext <;> (try dsimp only) <;>
      first
        | rfl
        | omega
        | rw [show k + 3 + 3 * n = k + 3 * (n + 1) by omega]
        | (rw [List.append_assoc, show 3 * (n + 1) = 3 + 3 * n by ring,
            List.replicate_add]
           rfl)

lemma discardStep_bitcounter (st : RtlState) :
    (discardStep st).bitcounter = st.bitcounter := by
  simp [discardStep]

lemma discardStep_buffercounter (st : RtlState) :
    (discardStep st).buffercounter = st.buffercounter := by
  simp [discardStep]

/-- A stream of 0x3F bytes only feeds the discard pool: the run equals
iterating discardStep three times per byte. -/
lemma run_63 (cfg : Cfg) (m : Nat) : ∀ (st : RtlState),
    st.bitcounter < 8 → st.buffercounter ≤ BUFFER_SIZE →
    run cfg (List.replicate m 63) st = discardStep^[3 * m] st := by
  induction m with
  | zero => intro st h1 h2; rfl
  | succ n ih =>
    intro st h1 h2
    rw [List.replicate_succ, run_cons]
    rw [process_byte_63 cfg st h1 h2]
    rw [ih _ (by simp [discardStep_bitcounter, h1]) (by simp [discardStep_buffercounter, h2])]
    rw [show 3 * (n + 1) = 3 * n + 3 by ring]
    rw [Function.iterate_add_apply]
    rfl

/-- Iterating discardStep preserves every non-pool field and appends to
the discarded trace. -/
lemma iterate_discardStep_frame (m : Nat) : ∀ (st : RtlState),
    (discardStep^[m] st).bitcounter = st.bitcounter ∧
    (discardStep^[m] st).buffercounter = st.buffercounter ∧
    (discardStep^[m] st).bitbuffer = st.bitbuffer ∧
    (discardStep^[m] st).bitbuffer_old = st.bitbuffer_old ∧
    (discardStep^[m] st).out = st.out ∧
    (discardStep^[m] st).logs = st.logs ∧
    (discardStep^[m] st).fipsIndex = st.fipsIndex ∧
    (discardStep^[m] st).emitted = st.emitted ∧
    (discardStep^[m] st).accepted = st.accepted ∧
    (discardStep^[m] st).discarded = st.discarded ++ List.replicate m 1 := by
  induction m with
  | zero =>
    intro st
    refine ⟨rfl, rfl, rfl, rfl, rfl, rfl, rfl, rfl, rfl, by simp⟩
  | succ n ih =>
    intro st
    rw [Function.iterate_succ_apply]
    obtain ⟨a1, a2, a3, a4, a5, a6, a7, a8, a9, a10⟩ := ih (discardStep st)
    refine ⟨?_, ?_, ?_, ?_, ?_, ?_, ?_, ?_, ?_, ?_⟩
    · rw [a1, discardStep_bitcounter]
    · rw [a2, discardStep_buffercounter]
    · rw [a3]; simp [discardStep]
    · rw [a4]; simp [discardStep]
    · rw [a5]; simp [discardStep]
    · rw [a6]; simp [discardStep]
    · rw [a7]; simp [discardStep]
    · rw [a8]; simp [discardStep]
    · rw [a9]; simp [discardStep]
    · rw [a10]; simp [discardStep, List.append_assoc, List.replicate_succ]

/-- Iterating discardStep advances the pool cursors bit by bit. -/
lemma iterate_discardStep_counters (m : Nat) : ∀ (st : RtlState) (n : Nat),
    st.hash_data_counter = (n / 8) % 64 → st.hash_data_bit_counter = n % 8 →
    st.hash_loop = (if 512 ≤ n then 1 else 0) →
    (discardStep^[m] st).hash_data_counter = ((n + m) / 8) % 64 ∧
    (discardStep^[m] st).hash_data_bit_counter = (n + m) % 8 ∧
    (discardStep^[m] st).hash_loop = (if 512 ≤ n + m then 1 else 0) := by
  induction m with
  | zero =>
    intro st n hc hk hl
    simpa using ⟨hc, hk, hl⟩
  | succ p ih =>
    intro st n hc hk hl
    rw [Function.iterate_succ_apply]
    have hstep := store_hash_data_counters 1 n
      { st with discarded := st.discarded ++ [1] }
      (by dsimp only; exact hc) (by dsimp only; exact hk) (by dsimp only; exact hl)
    have h2 := ih (discardStep st) (n + 1)
      (by rw [show discardStep st = store_hash_data 1 { st with discarded := st.discarded ++ [1] } from rfl]; exact hstep.1)
      (by rw [show discardStep st = store_hash_data 1 { st with discarded := st.discarded ++ [1] } from rfl]; exact hstep.2.1)
      (by rw [show discardStep st = store_hash_data 1 { st with discarded := st.discarded ++ [1] } from rfl]; exact hstep.2.2)
    have harith : n + 1 + p = n + (p + 1) := by omega
    rw [harith] at h2
    exact h2

/-! ### Block-completing byte characterizations -/

/-- The 0x2A byte whose first window completes the block, in encrypted
mode with the pool unprimed and a passing verdict: the block is
accepted but dropped (not delivered, not retained anywhere), and the two
remaining windows start the next block. -/
lemma process_byte_42_trigger1_enc_unprimed (cfg : Cfg) (st : RtlState)
    (hbit : st.bitcounter = 7) (hbc : st.buffercounter = BUFFER_SIZE)
    (hf : cfg.fips st.fipsIndex = 0) (he : cfg.encryption = true)
    (hl : st.hash_loop = 0) :
    process_byte cfg 42 st =
      { st with
          bitbuffer := fun i => if i < BUFFER_SIZE then 0 else st.bitbuffer i,
          bitcounter := 2,
          buffercounter := 0,
          fipsIndex := st.fipsIndex + 1,
          emitted := st.emitted ++ [0, 0, 0],
          accepted := st.accepted ++ [blockChunk st] } := by
  simp only [process_byte]
  rw [process_windows_succ _ _ _ _ _ (by decide)]
  rw [window_step_trigger0_enc_unprimed cfg 42 0 st (by decide) (by decide)
    hbit hbc hf he hl]
  dsimp only
  rw [process_windows_succ _ _ _ _ _ (by decide)]
  rw [window_step_emit0 cfg 42 _ _ (by decide) (by decide)
    (by dsimp only; decide) (by dsimp only; decide)]
  dsimp only
  rw [process_windows_succ _ _ _ _ _ (by decide)]
  rw [window_step_emit0 cfg 42 _ _ (by decide) (by decide)
    (by dsimp only; decide) (by dsimp only; decide)]
  rw [process_windows_zero]
  apply RtlState.ext <;> (try dsimp only) <;> first | rfl | omega | simp

/-- The 0x2A byte whose first window completes the block, in whitening
mode with a passing verdict: the all-zero case of the whitening path
runs and the two remaining windows start the next block. -/
lemma process_byte_42_trigger1_whiten (cfg : Cfg) (st : RtlState)
    (hbit : st.bitcounter = 7) (hbc : st.buffercounter = BUFFER_SIZE)
    (hf : cfg.fips st.fipsIndex = 0) (he : cfg.encryption = false) :
    process_byte cfg 42 st =
      { st with
          bitbuffer := fun i => if i < BUFFER_SIZE then 0 else st.bitbuffer i,
          bitbuffer_old := fun i =>
            if i < BUFFER_SIZE then st.bitbuffer i ^^^ st.bitbuffer_old i
            else st.bitbuffer_old i,
          bitcounter := 2,
          buffercounter := 0,
          out := st.out ++ [oldChunk st],
          fipsIndex := st.fipsIndex + 1,
          emitted := st.emitted ++ [0, 0, 0],
          accepted := st.accepted ++ [blockChunk st] } := by
  simp only [process_byte]
  rw [process_windows_succ _ _ _ _ _ (by decide)]
  rw [window_step_trigger0_whiten cfg 42 0 st (by decide) (by decide) hbit hbc hf he]
  dsimp only
  rw [process_windows_succ _ _ _ _ _ (by decide)]
  rw [window_step_emit0 cfg 42 _ _ (by decide) (by decide)
    (by dsimp only; decide) (by dsimp only; decide)]
  dsimp only
  rw [process_windows_succ _ _ _ _ _ (by decide)]
  rw [window_step_emit0 cfg 42 _ _ (by decide) (by decide)
    (by dsimp only; decide) (by dsimp only; decide)]
  rw [process_windows_zero]
  apply RtlState.ext <;> (try dsimp only) <;> first | rfl | omega | simp

/-- The 0x2A byte whose first window completes the block when the
verdict fails: the block is discarded, the failure is reported only when
not detached, and the remaining two windows of the byte are skipped
because the reporting loop leaves j at N_FIPS_TESTS. -/
lemma process_byte_42_trigger1_fail (cfg : Cfg) (st : RtlState)
    (hbit : st.bitcounter = 7) (hbc : st.buffercounter = BUFFER_SIZE)
    (hf : cfg.fips st.fipsIndex ≠ 0) :
    process_byte cfg 42 st =
      { st with
          bitbuffer := fun i => if i < BUFFER_SIZE then 0 else st.bitbuffer i,
          bitcounter := 0,
          buffercounter := 0,
          fipsIndex := st.fipsIndex + 1,
          emitted := st.emitted ++ [0],
          logs := st.logs ++
            (if cfg.detach then []
             else (List.range N_FIPS_TESTS).filter
               (fun t => cfg.fips st.fipsIndex &&& fips_test_mask t ≠ 0)) } := by
  simp only [process_byte]
  rw [process_windows_succ _ _ _ _ _ (by decide)]
  rw [window_step_trigger0_fail cfg 42 0 st (by decide) (by decide) hbit hbc hf]
  dsimp only
  rw [process_windows_exit _ _ _ _ _ (by decide)]

/-- The 0x2A byte whose second window completes the block, in encrypted
mode with the pool primed and a passing verdict: the block is accepted,
encrypted under the SHA512 hash of the pool, and delivered. -/
lemma process_byte_42_trigger2_enc_primed (cfg : Cfg) (st : RtlState)
    (hbit : st.bitcounter = 6) (hbc : st.buffercounter = BUFFER_SIZE)
    (hf : cfg.fips st.fipsIndex = 0) (he : cfg.encryption = true)
    (hl : st.hash_loop ≠ 0) :
    process_byte cfg 42 st =
      { st with
          bitbuffer := fun i => if i < BUFFER_SIZE then 0 else st.bitbuffer i,
          bitcounter := 1,
          buffercounter := 0,
          out := st.out ++
            [aes_encrypt_model (cfg.sha512 (hashChunk st)) (blockChunk st)],
          fipsIndex := st.fipsIndex + 1,
          emitted := st.emitted ++ [0, 0, 0],
          accepted := st.accepted ++ [blockChunk st] } := by
  simp only [process_byte]
  rw [process_windows_succ _ _ _ _ _ (by decide)]
  rw [window_step_emit0 cfg 42 0 st (by decide) (by decide) (by omega)
    (by rw [hbit, hbc]; decide)]
  dsimp only
  rw [process_windows_succ _ _ _ _ _ (by decide)]
  rw [window_step_trigger0_enc_primed cfg 42 _ _ (by decide) (by decide)
    (by dsimp only; rw [hbit, hbc]; decide) (by dsimp only; rw [hbit, hbc]; decide)
    (by dsimp only; exact hf) he (by dsimp only; exact hl)]
  dsimp only
  rw [process_windows_succ _ _ _ _ _ (by decide)]
  rw [window_step_emit0 cfg 42 _ _ (by decide) (by decide)
    (by dsimp only; decide) (by dsimp only; decide)]
  rw [process_windows_zero]
  apply RtlState.ext <;> (try dsimp only) <;> first | rfl | omega | simp

/-- The 0x15 byte whose first window completes the block, in whitening
mode with a passing verdict: the delivered chunk is the previous
bitbuffer_old block and the accepted block is the buffer with the final
1 bit ORed in at the (out-of-range) cursor position. -/
lemma process_byte_21_trigger_whiten (cfg : Cfg) (st : RtlState)
    (hbit : st.bitcounter = 7) (hbc : st.buffercounter = BUFFER_SIZE)
    (hf : cfg.fips st.fipsIndex = 0) (he : cfg.encryption = false) :
    (process_byte cfg 21 st).out = st.out ++ [oldChunk st] ∧
    (process_byte cfg 21 st).accepted = st.accepted ++
      [(List.range BUFFER_SIZE).map (fun i =>
        if i = st.buffercounter then st.bitbuffer i ||| (1 <<< st.bitcounter)
        else st.bitbuffer i)] := by
  simp only [process_byte]
  rw [process_windows_succ _ _ _ _ _ (by decide)]
  rw [window_step_trigger1_whiten cfg 21 0 st (by decide) (by decide) hbit hbc hf he]
  dsimp only
  rw [process_windows_succ _ _ _ _ _ (by decide)]
  rw [window_step_emit1 cfg 21 _ _ (by decide) (by decide)
    (by dsimp only; decide) (by dsimp only; decide)]
  dsimp only
  rw [process_windows_succ _ _ _ _ _ (by decide)]
  rw [window_step_emit1 cfg 21 _ _ (by decide) (by decide)
    (by dsimp only; decide) (by dsimp only; decide)]
  rw [process_windows_zero]
  exact ⟨rfl, rfl⟩

/-! ### The stream-cipher model: encrypt then decrypt is the identity -/

lemma zipWith_xor_cancel : ∀ (m ks : List Nat), ks.length = m.length →
    List.zipWith (fun a b => a ^^^ b)
      (List.zipWith (fun a b => a ^^^ b) m ks) ks = m := by
  intro m
  induction m with
  | nil => intro ks h; simp
  | cons a m ih =>
    intro ks h
    cases ks with
    | nil => simp at h
    | cons k ks =>
      simp only [List.zipWith_cons_cons, List.cons.injEq]
      exact ⟨Nat.xor_cancel_right k a, ih ks (by simpa using h)⟩

lemma aes_encrypt_model_length (key m : List Nat) :
    (aes_encrypt_model key m).length = m.length := by
  simp [aes_encrypt_model, aes_keystream]

lemma aes_keystream_length (key : List Nat) (n : Nat) :
    (aes_keystream key n).length = n := by
  simp [aes_keystream]

/-! ### Discard-pool cursor bounds -/

lemma store_hash_data_bounds (bit : Nat) (st : RtlState)
    (hc : st.hash_data_counter < SHA512_DIGEST_LENGTH)
    (hk : st.hash_data_bit_counter < 8) :
    (store_hash_data bit st).hash_data_counter < SHA512_DIGEST_LENGTH ∧
    (store_hash_data bit st).hash_data_bit_counter < 8 := by
  simp only [store_hash_data, SHA512_DIGEST_LENGTH] at hc ⊢
  by_cases h8 : st.hash_data_bit_counter + 1 = 8
  · by_cases h64 : st.hash_data_counter + 1 = 64
    · rw [if_pos h8, if_pos h8, if_pos h64]
      refine ⟨?_, ?_⟩ <;> (dsimp only; omega)
    · rw [if_pos h8, if_pos h8, if_neg h64]
      refine ⟨?_, ?_⟩ <;> (dsimp only; omega)
  · rw [if_neg h8, if_neg h8]
    rw [if_neg (show ¬st.hash_data_counter = 64 by omega)]
    refine ⟨?_, ?_⟩ <;> (dsimp only; omega)

lemma hashRun_bounds (bits : List Nat) : ∀ (st : RtlState),
    st.hash_data_counter < SHA512_DIGEST_LENGTH →
    st.hash_data_bit_counter < 8 →
    (hashRun bits st).hash_data_counter < SHA512_DIGEST_LENGTH ∧
    (hashRun bits st).hash_data_bit_counter < 8 := by
  induction bits with
  | nil => intro st hc hk; exact ⟨hc, hk⟩
  | cons b bs ih =>
    intro st hc hk
    have h := store_hash_data_bounds b st hc hk
    simpa [hashRun] using ih (store_hash_data b st) h.1 h.2

/-! ### The accumulator zero-ahead invariant -/

lemma buffer_full_id (cfg : Cfg) (j : Nat) (st : RtlState)
    (ht : ¬st.buffercounter > BUFFER_SIZE) :
    buffer_full_check cfg j st = (st, j) := by
  simp only [buffer_full_check]
  rw [if_neg ht]

lemma buffer_full_reset (cfg : Cfg) (j : Nat) (st : RtlState)
    (ht : st.buffercounter > BUFFER_SIZE) :
    (buffer_full_check cfg j st).1.bitcounter = st.bitcounter ∧
    (buffer_full_check cfg j st).1.buffercounter = 0 ∧
    ∀ i, i < BUFFER_SIZE → (buffer_full_check cfg j st).1.bitbuffer i = 0 := by
  simp only [buffer_full_check]
  rw [if_pos ht]
  refine ⟨?_, ?_, ?_⟩ <;> (repeat' split) <;> (try intro i hi) <;> simp [*]

/-- The full-block path always leaves a state satisfying the invariant:
whatever the verdict and mode, the buffer is zeroed and the cursors are
reset. -/
lemma buffer_full_ZeroInv (cfg : Cfg) (j : Nat) (st : RtlState)
    (ht : st.buffercounter > BUFFER_SIZE) (hb : st.bitcounter < 8) :
    ZeroInv (buffer_full_check cfg j st).1 := by
  obtain ⟨r1, r2, r3⟩ := buffer_full_reset cfg j st ht
  refine ⟨by rw [r1]; exact hb, by rw [r2]; exact Nat.zero_le _,
    fun i hi hbc => r3 i hi, ?_⟩
  intro hlt
  rw [r1, r2, r3 0 (by rw [r2] at hlt; exact hlt)]
  exact Nat.pos_pow_of_pos st.bitcounter (by omega)

/-- When the block is not complete the buffer-full check is the
identity, so the invariant carries over. -/
lemma buffer_full_id_ZeroInv (cfg : Cfg) (j : Nat) (st : RtlState)
    (ht : ¬st.buffercounter > BUFFER_SIZE) (h : ZeroInv st) :
    ZeroInv (buffer_full_check cfg j st).1 := by
  rw [buffer_full_id cfg j st ht]
  exact h

/-- One window step preserves the zero-ahead invariant. -/
lemma window_step_ZeroInv (cfg : Cfg) (b j : Nat) (st : RtlState) (h : ZeroInv st) :
    ZeroInv (window_step cfg b j st).1 := by
  obtain ⟨h1, h2, h3, h4⟩ := h
  by_cases hch : (b >>> j) &&& 1 = (b >>> (j + 1)) &&& 1
  · rw [window_step_discard cfg b j ((b >>> j) &&& 1) st rfl hch.symm h1 h2]
    refine ⟨by simpa using h1, by simpa using h2, ?_, ?_⟩
    · intro i hi hbc
      simp only [store_hash_data_bitbuffer, store_hash_data_buffercounter] at hbc ⊢
      exact h3 i hi hbc
    · intro hlt
      simp only [store_hash_data_bitbuffer, store_hash_data_buffercounter,
        store_hash_data_bitcounter] at hlt ⊢
      exact h4 hlt
  · -- emitting window: advance the cursor, possibly writing a 1
    simp only [window_step, debias_window, debias_bits, if_pos hch]
    by_cases hc0 : (b >>> j) &&& 1 ≠ 0
    · rw [if_pos hc0]
      by_cases h7 : st.bitcounter = 7
      · simp only [byte_full_check]
        try dsimp only
        rw [if_pos (show st.bitcounter + 1 ≥ 8 by omega)]
        by_cases hbs : st.buffercounter = BUFFER_SIZE
        · apply buffer_full_ZeroInv
          · dsimp only; omega
          · dsimp only; omega
        · refine buffer_full_id_ZeroInv cfg j _ ?_ ?_
          · dsimp only; omega
          refine ⟨by dsimp only; omega, by dsimp only; omega, ?_, ?_⟩
          · intro i hi hbc
            dsimp only at hbc ⊢
            rw [if_neg (show ¬i = st.buffercounter by omega)]
            exact h3 i hi (by omega)
          · intro hlt
            dsimp only at hlt ⊢
            rw [if_neg (show ¬st.buffercounter + 1 = st.buffercounter by omega)]
            rw [h3 (st.buffercounter + 1) (by omega) (by omega)]
            exact Nat.pos_pow_of_pos 0 (by omega)
      · simp only [byte_full_check]
        try dsimp only
        rw [if_neg (show ¬st.bitcounter + 1 ≥ 8 by omega)]
        refine buffer_full_id_ZeroInv cfg j _ ?_ ?_
        · dsimp only; omega
        refine ⟨by dsimp only; omega, by dsimp only; exact h2, ?_, ?_⟩
        · intro i hi hbc
          dsimp only at hbc ⊢
          rw [if_neg (show ¬i = st.buffercounter by omega)]
          exact h3 i hi (by omega)
        · intro hlt
          dsimp only at hlt ⊢
          rw [if_pos rfl]
          refine Nat.or_lt_two_pow
            (Nat.lt_of_lt_of_le (h4 (by omega)) (Nat.pow_le_pow_right (by omega) (by omega))) ?_
          rw [Nat.shiftLeft_eq, Nat.one_mul]
          exact Nat.pow_lt_pow_right (by omega) (by omega)
    · rw [if_neg hc0]
      by_cases h7 : st.bitcounter = 7
      · simp only [byte_full_check]
        try dsimp only
        rw [if_pos (show st.bitcounter + 1 ≥ 8 by omega)]
        by_cases hbs : st.buffercounter = BUFFER_SIZE
        · apply buffer_full_ZeroInv
          · dsimp only; omega
          · dsimp only; omega
        · refine buffer_full_id_ZeroInv cfg j _ ?_ ?_
          · dsimp only; omega
          refine ⟨by dsimp only; omega, by dsimp only; omega, ?_, ?_⟩
          · intro i hi hbc
            dsimp only at hbc ⊢
            exact h3 i hi (by omega)
          · intro hlt
            dsimp only at hlt ⊢
            rw [h3 (st.buffercounter + 1) (by omega) (by omega)]
            exact Nat.pos_pow_of_pos 0 (by omega)
      · simp only [byte_full_check]
        try dsimp only
        rw [if_neg (show ¬st.bitcounter + 1 ≥ 8 by omega)]
        refine buffer_full_id_ZeroInv cfg j _ ?_ ?_
        · dsimp only; omega
        refine ⟨by dsimp only; omega, by dsimp only; exact h2, ?_, ?_⟩
        · intro i hi hbc
          dsimp only at hbc ⊢
          exact h3 i hi (by omega)
        · intro hlt
          dsimp only at hlt ⊢
          exact Nat.lt_of_lt_of_le (h4 (by omega))
            (Nat.pow_le_pow_right (by omega) (by omega))

lemma process_windows_ZeroInv (fuel : Nat) : ∀ (cfg : Cfg) (b j : Nat)
    (st : RtlState), ZeroInv st → ZeroInv (process_windows fuel cfg b j st) := by
  induction fuel with
  | zero => intro cfg b j st h; exact h
  | succ n ih =>
    intro cfg b j st h
    simp only [process_windows]
    split
    · exact ih cfg b _ _ (window_step_ZeroInv cfg b j st h)
    · exact h

lemma process_byte_ZeroInv (cfg : Cfg) (b : Nat) (st : RtlState)
    (h : ZeroInv st) : ZeroInv (process_byte cfg b st) :=
  process_windows_ZeroInv 3 cfg b 0 st h

lemma run_ZeroInv (cfg : Cfg) (input : List Nat) : ∀ (st : RtlState),
    ZeroInv st → ZeroInv (run cfg input st) := by
  induction input with
  | nil => intro st h; exact h
  | cons b bs ih =>
    intro st h
    simpa [run, List.foldl_cons] using
      ih (process_byte cfg b st) (process_byte_ZeroInv cfg b st h)

lemma ZeroInv_initState : ZeroInv initState := by
  refine ⟨by simp [initState], by simp [initState, BUFFER_SIZE], ?_, ?_⟩
  · intro i hi hbc; rfl
  · intro hlt; simp [initState]

/-! ### The whitening-mode delivery invariant -/

lemma map_range_if_lt (n : Nat) (f g : Nat → Nat) :
    (List.range n).map (fun i => if i < n then f i else g i) =
      (List.range n).map f := by
  apply List.map_congr_left
  intro i hi
  rw [List.mem_range] at hi
  rw [if_pos hi]

lemma zipWith_map_same (f : Nat → Nat → Nat) (g h : Nat → Nat) :
    ∀ (l : List Nat),
      List.zipWith f (l.map g) (l.map h) = l.map (fun x => f (g x) (h x)) := by
  intro l
  induction l with
  | nil => rfl
  | cons a l ih => simp [ih]

lemma xorBytes_comm (x y : List Nat) : xorBytes x y = xorBytes y x :=
  List.zipWith_comm_of_comm _ (fun a b => Nat.xor_comm a b) x y

lemma xorBlocks_append (as : List (List Nat)) (A : List Nat) :
    xorBlocks (as ++ [A]) = xorBytes (xorBlocks as) A := by
  simp [xorBlocks, List.foldl_append]

lemma whitenScan_append (as : List (List Nat)) (A : List Nat) :
    whitenScan (as ++ [A]) = whitenScan as ++ [xorBlocks as] := by
  simp only [whitenScan, List.length_append, List.length_singleton]
  rw [List.range_succ, List.map_append, List.map_singleton]
  congr 1
  · apply List.map_congr_left
    intro i hi
    rw [List.mem_range] at hi
    rw [List.take_append_of_le_length (by omega)]
  · rw [List.take_left]

/-- The buffer-full path preserves the whitening delivery invariant in
whitening mode, whatever the verdict. -/
lemma buffer_full_WhitenInv (cfg : Cfg) (j : Nat) (st : RtlState)
    (he : cfg.encryption = false) (h : WhitenInv st) :
    WhitenInv (buffer_full_check cfg j st).1 := by
  obtain ⟨ho, hold⟩ := h
  by_cases ht : st.buffercounter > BUFFER_SIZE
  · by_cases hf : cfg.fips st.fipsIndex = 0
    · rw [buffer_full_pass_whiten cfg j st ht hf he]
      constructor
      · dsimp only
        rw [ho, hold, whitenScan_append]
      · dsimp only [oldChunk]
        rw [xorBlocks_append]
        calc (List.range BUFFER_SIZE).map (fun i =>
              if i < BUFFER_SIZE then st.bitbuffer i ^^^ st.bitbuffer_old i
              else st.bitbuffer_old i)
            = (List.range BUFFER_SIZE).map
                (fun i => st.bitbuffer i ^^^ st.bitbuffer_old i) :=
              map_range_if_lt BUFFER_SIZE _ _
          _ = xorBytes (blockChunk st) (oldChunk st) :=
              (zipWith_map_same _ _ _ _).symm
          _ = xorBytes (oldChunk st) (blockChunk st) := xorBytes_comm _ _
          _ = xorBytes (xorBlocks st.accepted) (blockChunk st) := by rw [hold]
    · rw [buffer_full_fail cfg j st ht hf]
      exact ⟨ho, hold⟩
  · rw [buffer_full_id cfg j st ht]
    exact ⟨ho, hold⟩

lemma store_hash_data_WhitenInv (v : Nat) (st : RtlState) (h : WhitenInv st) :
    WhitenInv (store_hash_data v st) := by
  constructor
  · rw [store_hash_data_out, store_hash_data_accepted]
    exact h.1
  · have : oldChunk (store_hash_data v st) = oldChunk st := by
      simp only [oldChunk, store_hash_data_bitbuffer_old]
    rw [this, store_hash_data_accepted]
    exact h.2

lemma byte_full_WhitenInv (st : RtlState) (h : WhitenInv st) :
    WhitenInv (byte_full_check st) := by
  simp only [byte_full_check]
  split
  · exact h
  · exact h

/-- One window step preserves the whitening delivery invariant. -/
lemma window_step_WhitenInv (cfg : Cfg) (b j : Nat) (st : RtlState)
    (he : cfg.encryption = false) (h : WhitenInv st) :
    WhitenInv (window_step cfg b j st).1 := by
  simp only [window_step, debias_window, debias_bits]
  by_cases hch : ¬((b >>> j) &&& 1 = (b >>> (j + 1)) &&& 1)
  · rw [if_pos hch]
    by_cases hc0 : (b >>> j) &&& 1 ≠ 0
    · rw [if_pos hc0]
      exact buffer_full_WhitenInv cfg j _ he (byte_full_WhitenInv _ h)
    · rw [if_neg hc0]
      exact buffer_full_WhitenInv cfg j _ he (byte_full_WhitenInv _ h)
  · rw [if_neg hch]
    refine buffer_full_WhitenInv cfg j _ he (byte_full_WhitenInv _ ?_)
    exact store_hash_data_WhitenInv _ _ h

lemma process_windows_WhitenInv (fuel : Nat) : ∀ (cfg : Cfg) (b j : Nat)
    (st : RtlState), cfg.encryption = false → WhitenInv st →
    WhitenInv (process_windows fuel cfg b j st) := by
  induction fuel with
  | zero => intro cfg b j st he h; exact h
  | succ n ih =>
    intro cfg b j st he h
    simp only [process_windows]
    split
    · exact ih cfg b _ _ he (window_step_WhitenInv cfg b j st he h)
    · exact h

lemma run_WhitenInv (cfg : Cfg) (input : List Nat) : ∀ (st : RtlState),
    cfg.encryption = false → WhitenInv st → WhitenInv (run cfg input st) := by
  induction input with
  | nil => intro st he h; exact h
  | cons b bs ih =>
    intro st he h
    simpa [run, List.foldl_cons] using ih (process_byte cfg b st) he
      (process_windows_WhitenInv 3 cfg b 0 st he h)

lemma WhitenInv_initState : WhitenInv initState := by
  constructor
  · rfl
  · show oldChunk initState = xorBlocks []
    simp only [oldChunk, xorBlocks, List.foldl_nil, initState]
    rw [List.map_const' (List.range BUFFER_SIZE) 0, List.length_range]

/-! ### Further projection facts -/

@[simp]
lemma byte_full_check_out (st : RtlState) :
    (byte_full_check st).out = st.out := by
  simp only [byte_full_check]; split <;> rfl

@[simp]
lemma byte_full_check_emitted (st : RtlState) :
    (byte_full_check st).emitted = st.emitted := by
  simp only [byte_full_check]; split <;> rfl

@[simp]
lemma byte_full_check_discarded (st : RtlState) :
    (byte_full_check st).discarded = st.discarded := by
  simp only [byte_full_check]; split <;> rfl

@[simp]
lemma byte_full_check_fipsIndex (st : RtlState) :
    (byte_full_check st).fipsIndex = st.fipsIndex := by
  simp only [byte_full_check]; split <;> rfl

@[simp]
lemma byte_full_check_accepted (st : RtlState) :
    (byte_full_check st).accepted = st.accepted := by
  simp only [byte_full_check]; split <;> rfl

@[simp]
lemma byte_full_check_logs (st : RtlState) :
    (byte_full_check st).logs = st.logs := by
  simp only [byte_full_check]; split <;> rfl

@[simp]
lemma byte_full_check_hash_data_counter (st : RtlState) :
    (byte_full_check st).hash_data_counter = st.hash_data_counter := by
  simp only [byte_full_check]; split <;> rfl

@[simp]
lemma byte_full_check_hash_data_bit_counter (st : RtlState) :
    (byte_full_check st).hash_data_bit_counter = st.hash_data_bit_counter := by
  simp only [byte_full_check]; split <;> rfl

@[simp]
lemma byte_full_check_hash_data_buffer (st : RtlState) :
    (byte_full_check st).hash_data_buffer = st.hash_data_buffer := by
  simp only [byte_full_check]; split <;> rfl

@[simp]
lemma buffer_full_check_emitted (cfg : Cfg) (j : Nat) (st : RtlState) :
    (buffer_full_check cfg j st).1.emitted = st.emitted := by
  simp only [buffer_full_check]
  repeat' split
  all_goals rfl

@[simp]
lemma buffer_full_check_discarded (cfg : Cfg) (j : Nat) (st : RtlState) :
    (buffer_full_check cfg j st).1.discarded = st.discarded := by
  simp only [buffer_full_check]
  repeat' split
  all_goals rfl

@[simp]
lemma buffer_full_check_bitcounter (cfg : Cfg) (j : Nat) (st : RtlState) :
    (buffer_full_check cfg j st).1.bitcounter = st.bitcounter := by
  simp only [buffer_full_check]
  repeat' split
  all_goals rfl

@[simp]
lemma buffer_full_check_hash_data_counter (cfg : Cfg) (j : Nat) (st : RtlState) :
    (buffer_full_check cfg j st).1.hash_data_counter = st.hash_data_counter := by
  simp only [buffer_full_check]
  repeat' split
  all_goals rfl

@[simp]
lemma buffer_full_check_hash_data_bit_counter (cfg : Cfg) (j : Nat) (st : RtlState) :
    (buffer_full_check cfg j st).1.hash_data_bit_counter = st.hash_data_bit_counter := by
  simp only [buffer_full_check]
  repeat' split
  all_goals rfl

@[simp]
lemma buffer_full_check_hash_data_buffer (cfg : Cfg) (j : Nat) (st : RtlState) :
    (buffer_full_check cfg j st).1.hash_data_buffer = st.hash_data_buffer := by
  simp only [buffer_full_check]
  repeat' split
  all_goals rfl

/-- On a completed block the health battery is consulted exactly once. -/
lemma buffer_full_trigger_fipsIndex (cfg : Cfg) (j : Nat) (st : RtlState)
    (ht : st.buffercounter > BUFFER_SIZE) :
    (buffer_full_check cfg j st).1.fipsIndex = st.fipsIndex + 1 := by
  simp only [buffer_full_check]
  rw [if_pos ht]
  repeat' split
  all_goals rfl

/-- On a passing verdict the window loop variable j is untouched. -/
lemma buffer_full_pass_j (cfg : Cfg) (j : Nat) (st : RtlState)
    (hf : cfg.fips st.fipsIndex = 0) :
    (buffer_full_check cfg j st).2 = j := by
  by_cases ht : st.buffercounter > BUFFER_SIZE
  · by_cases he : cfg.encryption = true
    · by_cases hl : st.hash_loop = 0
      · rw [buffer_full_pass_enc_unprimed cfg j st ht hf he hl]
      · rw [buffer_full_pass_enc_primed cfg j st ht hf he hl]
    · rw [buffer_full_pass_whiten cfg j st ht hf (Bool.not_eq_true cfg.encryption ▸ he)]
  · rw [buffer_full_id cfg j st ht]

/-- In encrypted mode with the pool unprimed, the buffer-full path never
writes output. -/
lemma buffer_full_out_enc_unprimed (cfg : Cfg) (j : Nat) (st : RtlState)
    (he : cfg.encryption = true) (hl : st.hash_loop = 0) :
    (buffer_full_check cfg j st).1.out = st.out := by
  by_cases ht : st.buffercounter > BUFFER_SIZE
  · by_cases hf : cfg.fips st.fipsIndex = 0
    · rw [buffer_full_pass_enc_unprimed cfg j st ht hf he hl]
    · rw [buffer_full_fail cfg j st ht hf]
  · rw [buffer_full_id cfg j st ht]

/-! ### Ghost-stream characterization of one window -/

/-- One window step, under bounded cursors and a passing verdict for a
block completed here: the emitted/discarded traces gain exactly the
window contribution, j is unchanged, the cursor bounds are maintained,
the cursors advance by at most one position, and the battery index only
advances together with a cursor reset. -/
lemma window_step_ghost (cfg : Cfg) (b j : Nat) (st : RtlState)
    (h1 : st.bitcounter < 8) (h2 : st.buffercounter ≤ BUFFER_SIZE)
    (hfp : st.bitcounter = 7 → st.buffercounter = BUFFER_SIZE →
      cfg.fips st.fipsIndex = 0) :
    (window_step cfg b j st).1.emitted = st.emitted ++
        (if (b >>> j) &&& 1 = (b >>> (j + 1)) &&& 1 then []
         else [(b >>> j) &&& 1]) ∧
    (window_step cfg b j st).1.discarded = st.discarded ++
        (if (b >>> j) &&& 1 = (b >>> (j + 1)) &&& 1 then [(b >>> j) &&& 1]
         else []) ∧
    (window_step cfg b j st).2 = j ∧
    (window_step cfg b j st).1.bitcounter < 8 ∧
    (window_step cfg b j st).1.buffercounter ≤ BUFFER_SIZE ∧
    (window_step cfg b j st).1.bitcounter ≤ st.bitcounter + 1 ∧
    (window_step cfg b j st).1.buffercounter ≤ st.buffercounter + 1 ∧
    ((window_step cfg b j st).1.fipsIndex = st.fipsIndex ∨
      ((window_step cfg b j st).1.bitcounter = 0 ∧
       (window_step cfg b j st).1.buffercounter = 0)) := by
  by_cases hch : (b >>> j) &&& 1 = (b >>> (j + 1)) &&& 1
  · rw [window_step_discard cfg b j ((b >>> j) &&& 1) st rfl hch.symm h1 h2]
    rw [if_pos hch, if_pos hch]
    refine ⟨by simp, by simp, rfl, by simpa using h1, by simpa using h2,
      by simp, by simp, Or.inl (by simp)⟩
  · simp only [window_step, debias_window, debias_bits, if_pos hch,
      if_neg hch]
    have hemit : ∀ st1 : RtlState, st1.bitcounter = st.bitcounter + 1 →
        st1.buffercounter = st.buffercounter →
        st1.emitted = st.emitted ++ [(b >>> j) &&& 1] →
        st1.discarded = st.discarded →
        st1.fipsIndex = st.fipsIndex →
        (buffer_full_check cfg j (byte_full_check st1)).1.emitted =
            st.emitted ++ [(b >>> j) &&& 1] ∧
        (buffer_full_check cfg j (byte_full_check st1)).1.discarded =
            st.discarded ++ [] ∧
        (buffer_full_check cfg j (byte_full_check st1)).2 = j ∧
        (buffer_full_check cfg j (byte_full_check st1)).1.bitcounter < 8 ∧
        (buffer_full_check cfg j (byte_full_check st1)).1.buffercounter ≤ BUFFER_SIZE ∧
        (buffer_full_check cfg j (byte_full_check st1)).1.bitcounter ≤ st.bitcounter + 1 ∧
        (buffer_full_check cfg j (byte_full_check st1)).1.buffercounter ≤ st.buffercounter + 1 ∧
        ((buffer_full_check cfg j (byte_full_check st1)).1.fipsIndex = st.fipsIndex ∨
          ((buffer_full_check cfg j (byte_full_check st1)).1.bitcounter = 0 ∧
           (buffer_full_check cfg j (byte_full_check st1)).1.buffercounter = 0)) := by
      intro st1 e1 e2 e3 e4 e5
      by_cases h7 : st.bitcounter = 7
      · have hb0 : (byte_full_check st1).bitcounter = 0 := by
          simp only [byte_full_check]
          rw [if_pos (show st1.bitcounter ≥ 8 by omega)]
        have hbplus : (byte_full_check st1).buffercounter = st1.buffercounter + 1 := by
          simp only [byte_full_check]
          rw [if_pos (show st1.bitcounter ≥ 8 by omega)]
        by_cases hbs : st.buffercounter = BUFFER_SIZE
        · have ht : (byte_full_check st1).buffercounter > BUFFER_SIZE := by
            rw [hbplus]; omega
          obtain ⟨r1, r2, r3⟩ := buffer_full_reset cfg j _ ht
          refine ⟨by simp [e3], by simp [e4], ?_, ?_, ?_, ?_, ?_, ?_⟩
          · apply buffer_full_pass_j
            rw [byte_full_check_fipsIndex, e5]
            exact hfp h7 hbs
          · rw [r1, hb0]; omega
          · rw [r2]; exact Nat.zero_le _
          · rw [r1, hb0]; omega
          · rw [r2]; omega
          · exact Or.inr ⟨by rw [r1, hb0], r2⟩
        · have ht : ¬(byte_full_check st1).buffercounter > BUFFER_SIZE := by
            rw [hbplus]; omega
          rw [buffer_full_id cfg j _ ht]
          refine ⟨by simp [e3], by simp [e4], rfl, by rw [hb0]; omega,
            by rw [hbplus]; omega, by rw [hb0]; omega, by rw [hbplus]; omega,
            Or.inl (by rw [byte_full_check_fipsIndex, e5])⟩
      · have hbf : byte_full_check st1 = st1 := by
          simp only [byte_full_check]
          rw [if_neg (show ¬st1.bitcounter ≥ 8 by omega)]
        rw [hbf]
        rw [buffer_full_id cfg j _ (show ¬st1.buffercounter > BUFFER_SIZE by omega)]
        refine ⟨by simpa using e3, by simpa using e4, rfl, by dsimp only; omega,
          by dsimp only; omega, by dsimp only; omega, by dsimp only; omega,
          Or.inl (by dsimp only; exact e5)⟩
    by_cases hc0 : (b >>> j) &&& 1 ≠ 0
    · rw [if_pos hc0]
      exact hemit _ rfl rfl rfl rfl rfl
    · rw [if_neg hc0]
      exact hemit _ rfl rfl rfl rfl rfl

lemma keptBits_eq (b : Nat) : keptBits b =
    (if (b >>> 0) &&& 1 = (b >>> 1) &&& 1 then [] else [(b >>> 0) &&& 1]) ++
    ((if (b >>> 2) &&& 1 = (b >>> 3) &&& 1 then [] else [(b >>> 2) &&& 1]) ++
     (if (b >>> 4) &&& 1 = (b >>> 5) &&& 1 then [] else [(b >>> 4) &&& 1])) := by
  simp [keptBits, specWindows]

lemma discardBits_eq (b : Nat) : discardBits b =
    (if (b >>> 0) &&& 1 = (b >>> 1) &&& 1 then [(b >>> 0) &&& 1] else []) ++
    ((if (b >>> 2) &&& 1 = (b >>> 3) &&& 1 then [(b >>> 2) &&& 1] else []) ++
     (if (b >>> 4) &&& 1 = (b >>> 5) &&& 1 then [(b >>> 4) &&& 1] else [])) := by
  simp [discardBits, specWindows]

/-- A whole sample byte, under bounded cursors and a passing verdict for
any block completed during it: the emitted and discarded traces gain
exactly the keptBits and discardBits of the byte. -/
lemma process_byte_ghost (cfg : Cfg) (b : Nat) (st : RtlState)
    (h1 : st.bitcounter < 8) (h2 : st.buffercounter ≤ BUFFER_SIZE)
    (hf : cfg.fips st.fipsIndex = 0) :
    (process_byte cfg b st).emitted = st.emitted ++ keptBits b ∧
    (process_byte cfg b st).discarded = st.discarded ++ discardBits b := by
  obtain ⟨e1, d1, j1, b1, c1, bb1, cc1, f1⟩ :=
    window_step_ghost cfg b 0 st h1 h2 (fun _ _ => hf)
  obtain ⟨e2, d2, j2, b2, c2, bb2, cc2, f2⟩ :=
    window_step_ghost cfg b 2 (window_step cfg b 0 st).1 b1 c1
      (by intro hx7 hxB
          rcases f1 with hsame | ⟨hz1, hz2⟩
          · rw [hsame]; exact hf
          · rw [hz1] at hx7; omega)
  obtain ⟨e3, d3, j3, b3, c3, bb3, cc3, f3⟩ :=
    window_step_ghost cfg b 4
      (window_step cfg b 2 (window_step cfg b 0 st).1).1 b2 c2
      (by intro hx7 hxB
          rcases f2 with hsame2 | ⟨hz1, hz2⟩
          · rcases f1 with hsame | ⟨hw1, hw2⟩
            · rw [hsame2, hsame]; exact hf
            · rw [hw1] at bb2
              omega
          · rw [hz1] at hx7; omega)
  have hunfold : process_byte cfg b st =
      (window_step cfg b 4 (window_step cfg b 2 (window_step cfg b 0 st).1).1).1 := by
    simp only [process_byte]
    rw [process_windows_succ _ _ _ _ _ (by decide)]
    rw [j1]
    rw [process_windows_succ _ _ _ _ _ (by decide)]
    rw [show (0 : Nat) + 2 = 2 from rfl]
    rw [j2]
    rw [process_windows_succ _ _ _ _ _ (by decide)]
    rw [show (2 : Nat) + 2 = 4 from rfl]
    rw [process_windows_zero]
  rw [hunfold]
  constructor
  · rw [e3, e2, e1, keptBits_eq]
    simp [List.append_assoc]
  · rw [d3, d2, d1, discardBits_eq]
    simp [List.append_assoc]

/-! ### Encrypted mode on a discard-free stream: the pool never moves -/

/-- A window with unequal bits, in encrypted mode with the pool still at
its initial state: the pool cursors, priming flag, discarded trace and
output all stay put (whatever the verdict of a completed block). -/
lemma window_step_enc_no_pool (cfg : Cfg) (b j : Nat) (st : RtlState)
    (he : cfg.encryption = true)
    (hne : (b >>> j) &&& 1 ≠ (b >>> (j + 1)) &&& 1)
    (hc : st.hash_data_counter = 0) (hk : st.hash_data_bit_counter = 0)
    (hl : st.hash_loop = 0) (hd : st.discarded = []) (ho : st.out = []) :
    (window_step cfg b j st).1.hash_data_counter = 0 ∧
    (window_step cfg b j st).1.hash_data_bit_counter = 0 ∧
    (window_step cfg b j st).1.hash_loop = 0 ∧
    (window_step cfg b j st).1.discarded = [] ∧
    (window_step cfg b j st).1.out = [] := by
  simp only [window_step, debias_window, debias_bits, if_pos hne]
  by_cases hc0 : (b >>> j) &&& 1 ≠ 0
  · rw [if_pos hc0]
    refine ⟨?_, ?_, ?_, ?_, ?_⟩ <;>
      simp [buffer_full_out_enc_unprimed, he, hc, hk, hl, hd, ho]
  · rw [if_neg hc0]
    refine ⟨?_, ?_, ?_, ?_, ?_⟩ <;>
      simp [buffer_full_out_enc_unprimed, he, hc, hk, hl, hd, ho]

lemma process_windows_enc_no_pool (fuel : Nat) : ∀ (cfg : Cfg) (j : Nat)
    (st : RtlState), cfg.encryption = true →
    (∀ j2, j2 < 6 → (42 >>> j2) &&& 1 ≠ (42 >>> (j2 + 1)) &&& 1) →
    st.hash_data_counter = 0 → st.hash_data_bit_counter = 0 →
    st.hash_loop = 0 → st.discarded = [] → st.out = [] →
    (process_windows fuel cfg 42 j st).hash_data_counter = 0 ∧
    (process_windows fuel cfg 42 j st).hash_data_bit_counter = 0 ∧
    (process_windows fuel cfg 42 j st).hash_loop = 0 ∧
    (process_windows fuel cfg 42 j st).discarded = [] ∧
    (process_windows fuel cfg 42 j st).out = [] := by
  induction fuel with
  | zero => intro cfg j st he hw hc hk hl hd ho; exact ⟨hc, hk, hl, hd, ho⟩
  | succ n ih =>
    intro cfg j st he hw hc hk hl hd ho
    simp only [process_windows]
    split
    · rename_i hj
      obtain ⟨a1, a2, a3, a4, a5⟩ :=
        window_step_enc_no_pool cfg 42 j st he (hw j hj) hc hk hl hd ho
      exact ih cfg _ _ he hw a1 a2 a3 a4 a5
    · exact ⟨hc, hk, hl, hd, ho⟩

/-- Encrypted mode fed only 0x2A bytes: no matter how long the run is,
the discard pool never advances, never primes, and nothing is ever
written to the output. -/
lemma run_42_enc_no_pool (cfg : Cfg) (n : Nat) : ∀ (st : RtlState),
    cfg.encryption = true →
    st.hash_data_counter = 0 → st.hash_data_bit_counter = 0 →
    st.hash_loop = 0 → st.discarded = [] → st.out = [] →
    (run cfg (List.replicate n 42) st).hash_data_counter = 0 ∧
    (run cfg (List.replicate n 42) st).hash_data_bit_counter = 0 ∧
    (run cfg (List.replicate n 42) st).hash_loop = 0 ∧
    (run cfg (List.replicate n 42) st).discarded = [] ∧
    (run cfg (List.replicate n 42) st).out = [] := by
  induction n with
  | zero => intro st he hc hk hl hd ho; exact ⟨hc, hk, hl, hd, ho⟩
  | succ m ih =>
    intro st he hc hk hl hd ho
    rw [List.replicate_succ, run_cons]
    obtain ⟨a1, a2, a3, a4, a5⟩ := process_windows_enc_no_pool 3 cfg 0 st he
      (by intro j2 hj2; interval_cases j2 <;> decide) hc hk hl hd ho
    exact ih (process_byte cfg 42 st) he a1 a2 a3 a4 a5

/-! ### Encrypted mode never writes output before the pool is primed -/

lemma store_hash_data_hash_loop_cases (bit : Nat) (st : RtlState) :
    (store_hash_data bit st).hash_loop = 1 ∨
    (store_hash_data bit st).hash_loop = st.hash_loop := by
  simp only [store_hash_data]
  split <;> split <;> first | exact Or.inl rfl | exact Or.inr rfl

lemma store_hash_data_EncOutInv (bit : Nat) (st : RtlState) (h : EncOutInv st) :
    EncOutInv (store_hash_data bit st) := by
  obtain ⟨h01, himp⟩ := h
  constructor
  · rcases store_hash_data_hash_loop_cases bit st with h1 | h1
    · exact Or.inr h1
    · rw [h1]; exact h01
  · intro h0
    rw [store_hash_data_out]
    rcases store_hash_data_hash_loop_cases bit st with h1 | h1
    · rw [h0] at h1; exact absurd h1 (by decide)
    · exact himp (h1 ▸ h0)

lemma byte_full_EncOutInv (st : RtlState) (h : EncOutInv st) :
    EncOutInv (byte_full_check st) := by
  simp only [byte_full_check]
  split
  · exact h
  · exact h

lemma buffer_full_EncOutInv (cfg : Cfg) (j : Nat) (st : RtlState)
    (he : cfg.encryption = true) (h : EncOutInv st) :
    EncOutInv (buffer_full_check cfg j st).1 := by
  obtain ⟨h01, himp⟩ := h
  by_cases ht : st.buffercounter > BUFFER_SIZE
  · by_cases hf : cfg.fips st.fipsIndex = 0
    · by_cases hl : st.hash_loop = 0
      · rw [buffer_full_pass_enc_unprimed cfg j st ht hf he hl]
        exact ⟨h01, fun h0 => himp h0⟩
      · rw [buffer_full_pass_enc_primed cfg j st ht hf he hl]
        refine ⟨h01, fun h0 => absurd h0 hl⟩
    · rw [buffer_full_fail cfg j st ht hf]
      exact ⟨h01, fun h0 => himp h0⟩
  · rw [buffer_full_id cfg j st ht]
    exact ⟨h01, himp⟩

lemma window_step_EncOutInv (cfg : Cfg) (b j : Nat) (st : RtlState)
    (he : cfg.encryption = true) (h : EncOutInv st) :
    EncOutInv (window_step cfg b j st).1 := by
  simp only [window_step, debias_window, debias_bits]
  by_cases hch : ¬((b >>> j) &&& 1 = (b >>> (j + 1)) &&& 1)
  · rw [if_pos hch]
    by_cases hc0 : (b >>> j) &&& 1 ≠ 0
    · rw [if_pos hc0]
      exact buffer_full_EncOutInv cfg j _ he (byte_full_EncOutInv _ h)
    · rw [if_neg hc0]
      exact buffer_full_EncOutInv cfg j _ he (byte_full_EncOutInv _ h)
  · rw [if_neg hch]
    exact buffer_full_EncOutInv cfg j _ he
      (byte_full_EncOutInv _ (store_hash_data_EncOutInv _ _ h))

lemma process_windows_EncOutInv (fuel : Nat) : ∀ (cfg : Cfg) (b j : Nat)
    (st : RtlState), cfg.encryption = true → EncOutInv st →
    EncOutInv (process_windows fuel cfg b j st) := by
  induction fuel with
  | zero => intro cfg b j st he h; exact h
  | succ n ih =>
    intro cfg b j st he h
    simp only [process_windows]
    split
    · exact ih cfg b _ _ he (window_step_EncOutInv cfg b j st he h)
    · exact h

lemma run_EncOutInv (cfg : Cfg) (input : List Nat) : ∀ (st : RtlState),
    cfg.encryption = true → EncOutInv st → EncOutInv (run cfg input st) := by
  induction input with
  | nil => intro st he h; exact h
  | cons b bs ih =>
    intro st he h
    simpa [run, List.foldl_cons] using ih (process_byte cfg b st) he
      (process_windows_EncOutInv 3 cfg b 0 st he h)

lemma EncOutInv_initState : EncOutInv initState :=
  ⟨Or.inl rfl, fun _ => rfl⟩

lemma map_range_eq_replicate (n c : Nat) (f : Nat → Nat)
    (h : ∀ i, i < n → f i = c) :
    (List.range n).map f = List.replicate n c := by
  have he : (List.range n).map f = (List.range n).map (fun _ => c) :=
    List.map_congr_left (fun i hi => h i (List.mem_range.mp hi))
  rw [he, List.map_const', List.length_range]

/-! ### Concrete scenario runs -/

lemma replicate_split_last (n : Nat) (b : Nat) :
    List.replicate (n + 1) b = List.replicate n b ++ [b] :=
  List.replicate_succ' ..

lemma run21_6669 (cfg : Cfg) :
    run cfg (List.replicate 6669 21) initState = pre21 := by
  rw [run_21 cfg 6669 0 initState rfl rfl
    (by funext i; by_cases hi : i = 0 <;> simp [initState, buf15, hi])
    (by norm_num [BUFFER_SIZE])]
  apply RtlState.ext <;> (try dsimp only [pre21]) <;>
    first
      | rfl
      | norm_num
      | (show buf15 (0 + 3 * 6669) = buf15 20007; norm_num)
      | simp

lemma run42_6669 (cfg : Cfg) :
    run cfg (List.replicate 6669 42) initState = pre42 := by
  rw [run_42 cfg 6669 0 initState rfl rfl (by norm_num [BUFFER_SIZE])]
  apply RtlState.ext <;> (try dsimp only [pre42]) <;>
    first
      | rfl
      | norm_num
      | simp

lemma run_singleton (cfg : Cfg) (b : Nat) (st : RtlState) :
    run cfg [b] st = process_byte cfg b st := rfl

/-- The first delivered chunk of the whitening run on 0x15 bytes is the
all-zero block, while the first accepted block is all 255s. -/
lemma runA_facts :
    (run passWhitenCfg (List.replicate 6670 21) initState).out =
      [List.replicate BUFFER_SIZE 0] ∧
    (run passWhitenCfg (List.replicate 6670 21) initState).accepted =
      [List.replicate BUFFER_SIZE 255] := by
  rw [show (6670 : Nat) = 6669 + 1 from rfl, replicate_split_last, run_append,
    run21_6669, run_singleton]
  obtain ⟨ho, ha⟩ := process_byte_21_trigger_whiten passWhitenCfg pre21 rfl rfl rfl rfl
  rw [ho, ha]
  constructor
  · rw [show pre21.out = [] from rfl, List.nil_append]
    refine congrArg (fun x => [x]) ?_
    simp only [oldChunk]
    exact map_range_eq_replicate _ _ _ (fun i hi => rfl)
  · rw [show pre21.accepted = [] from rfl, List.nil_append]
    refine congrArg (fun x => [x]) ?_
    apply map_range_eq_replicate
    intro i hi
    simp only [BUFFER_SIZE] at hi
    rw [if_neg (show ¬i = pre21.buffercounter by dsimp only [pre21]; omega)]
    show buf15 20007 i = 255
    simp only [buf15]
    rw [if_pos (show i < 20007 / 8 by omega)]

/-- The whitening run on 6670 bytes of 0x2A delivers exactly one chunk,
the all-zero block. -/
lemma runW_facts :
    (run passWhitenCfg (List.replicate 6670 42) initState).out =
      [List.replicate BUFFER_SIZE 0] := by
  rw [show (6670 : Nat) = 6669 + 1 from rfl, replicate_split_last, run_append,
    run42_6669, run_singleton]
  rw [process_byte_42_trigger1_whiten passWhitenCfg pre42 rfl rfl rfl rfl]
  dsimp only
  rw [show pre42.out = [] from rfl, List.nil_append]
  refine congrArg (fun x => [x]) ?_
  simp only [oldChunk]
  exact map_range_eq_replicate _ _ _ (fun i hi => rfl)

/-- The detached run with an always-failing battery: the block completed
at the 20008th bit is tested (and fails), nothing is logged, nothing is
delivered, and the remaining two windows of the last byte are skipped. -/
lemma runF_facts :
    (run failDetachCfg (List.replicate 6670 42) initState).logs = [] ∧
    (run failDetachCfg (List.replicate 6670 42) initState).fipsIndex = 1 ∧
    (run failDetachCfg (List.replicate 6670 42) initState).emitted =
      List.replicate 20008 0 ∧
    (run failDetachCfg (List.replicate 6670 42) initState).discarded = [] ∧
    (run failDetachCfg (List.replicate 6670 42) initState).out = [] ∧
    (run failDetachCfg (List.replicate 6670 42) initState).accepted = [] := by
  rw [show (6670 : Nat) = 6669 + 1 from rfl, replicate_split_last, run_append,
    run42_6669, run_singleton]
  rw [process_byte_42_trigger1_fail failDetachCfg pre42 rfl rfl (by decide)]
  refine ⟨?_, rfl, ?_, rfl, rfl, rfl⟩
  · show pre42.logs ++ (if failDetachCfg.detach then _ else _) = []
    rfl
  · show pre42.emitted ++ [0] = List.replicate 20008 0
    rw [show (20008 : Nat) = 20007 + 1 from rfl, replicate_split_last]
    rfl

/-- Encrypted all-pass run on 6670 bytes of 0x2A reaches mid3. -/
lemma run3_mid :
    run passEncryptCfg (List.replicate 6670 42) initState = mid3 := by
  rw [show (6670 : Nat) = 6669 + 1 from rfl, replicate_split_last, run_append,
    run42_6669, run_singleton]
  rw [process_byte_42_trigger1_enc_unprimed passEncryptCfg pre42 rfl rfl rfl rfl rfl]
  rfl

/-- Continuing from mid3 with 171 priming bytes and one more block of
0x2A bytes: one chunk is delivered, two blocks stand accepted, and the
pool is primed. -/
lemma run3_end_facts :
    (run passEncryptCfg (List.replicate 171 63 ++ List.replicate 6669 42)
        mid3).out.length = 1 ∧
    (run passEncryptCfg (List.replicate 171 63 ++ List.replicate 6669 42)
        mid3).accepted.length = 2 ∧
    (run passEncryptCfg (List.replicate 171 63 ++ List.replicate 6669 42)
        mid3).hash_loop = 1 := by
  rw [run_append]
  rw [run_63 passEncryptCfg 171 mid3 (by norm_num [mid3, pre42])
    (by dsimp only [mid3]; exact Nat.zero_le _)]
  rw [show (3 : Nat) * 171 = 513 from by norm_num]
  obtain ⟨f1, f2, f3, f4, f5, f6, f7, f8, f9, f10⟩ :=
    iterate_discardStep_frame 513 mid3
  obtain ⟨c1, c2, c3⟩ := iterate_discardStep_counters 513 mid3 0 rfl rfl
    (by norm_num [mid3, pre42, initState])
  rw [show (6669 : Nat) = 6668 + 1 from rfl, replicate_split_last, run_append]
  rw [run_42 passEncryptCfg 6668 2 (discardStep^[513] mid3)
    (by rw [f1]; decide) (by rw [f2]; decide) (by norm_num [BUFFER_SIZE])]
  rw [run_singleton]
  rw [process_byte_42_trigger2_enc_primed passEncryptCfg _
    (by dsimp only; try norm_num)
    (by dsimp only; try norm_num [BUFFER_SIZE])
    rfl rfl
    (by dsimp only
        rw [c3]
        norm_num)]
  refine ⟨?_, ?_, ?_⟩
  · dsimp only
    rw [f5]
    rfl
  · dsimp only
    rw [f9]
    rfl
  · dsimp only
    rw [c3]
    norm_num

/-- The modelled symmetric decryption inverts the modelled encryption
under the same key, byte-for-byte. -/
lemma aes_roundtrip (key m : List Nat) :
    aes_decrypt_model key (aes_encrypt_model key m) = m := by
  simp only [aes_decrypt_model]
  rw [aes_encrypt_model_length]
  simp only [aes_encrypt_model]
  exact zipWith_xor_cancel m _ (aes_keystream_length key m.length)

/-! ### The claims -/

/-- C1: whitening mode delivers, for the i-th accepted block, the XOR of
all earlier accepted blocks: the chunk delivered when B1 completes is
the all-zero initial PreviousBlock (not B1 itself), and the retained
PreviousBlock after i blocks is the cumulative XOR of all accepted
blocks (not the last pre-XOR block).  This is the amended form of the
claim: the delivered output and internal state always satisfy the
whitening-scan invariant. -/
theorem C1_whitening_lag (cfg : Cfg) (input : List Nat)
    (he : cfg.encryption = false) :
    (run cfg input initState).out =
      whitenScan (run cfg input initState).accepted ∧
    oldChunk (run cfg input initState) =
      xorBlocks (run cfg input initState).accepted :=
  run_WhitenInv cfg input initState he WhitenInv_initState

theorem C1_whitening_lag_witness :
    passWhitenCfg.encryption = false ∧
    ((run passWhitenCfg [] initState).out =
      whitenScan (run passWhitenCfg [] initState).accepted ∧
     oldChunk (run passWhitenCfg [] initState) =
      xorBlocks (run passWhitenCfg [] initState).accepted) :=
  ⟨rfl, C1_whitening_lag passWhitenCfg [] rfl⟩

/-- C1 counterexample to the claim as stated: on a concrete stream the
first accepted block is all 255s, yet the chunk delivered when it
completes is the all-zero block, not the block itself. -/
theorem C1_first_block_not_delivered :
    (run passWhitenCfg (List.replicate 6670 21) initState).accepted =
      [List.replicate BUFFER_SIZE 255] ∧
    (run passWhitenCfg (List.replicate 6670 21) initState).out =
      [List.replicate BUFFER_SIZE 0] ∧
    List.replicate BUFFER_SIZE (0 : Nat) ≠ List.replicate BUFFER_SIZE 255 := by
  refine ⟨runA_facts.2, runA_facts.1, ?_⟩
  intro h
  have h2 := congrArg List.head? h
  rw [show (List.replicate BUFFER_SIZE (0 : Nat)).head? = some 0 from rfl,
      show (List.replicate BUFFER_SIZE (255 : Nat)).head? = some 255 from rfl] at h2
  simp at h2

/-- C2 (code bug): the buffer-full comparison is buffercounter >
BUFFER_SIZE instead of >=, so after 8 * BUFFER_SIZE + 1 debiased bits
(one more than a block) the full-block path has still never run (no
health test, no output, no accepted block) and a bit has been stored at
the out-of-range byte index BUFFER_SIZE of the BUFFER_SIZE-byte
accumulator. -/
theorem C2_overflow_bug :
    (run passWhitenCfg (List.replicate 6667 21) initState).emitted.length =
      8 * BUFFER_SIZE + 1 ∧
    (run passWhitenCfg (List.replicate 6667 21) initState).fipsIndex = 0 ∧
    (run passWhitenCfg (List.replicate 6667 21) initState).out = [] ∧
    (run passWhitenCfg (List.replicate 6667 21) initState).accepted = [] ∧
    (run passWhitenCfg (List.replicate 6667 21) initState).bitbuffer
      BUFFER_SIZE = 1 := by
  rw [run_21 passWhitenCfg 6667 0 initState rfl rfl
    (by funext i; by_cases hi : i = 0 <;> simp [initState, buf15, hi])
    (by norm_num [BUFFER_SIZE])]
  refine ⟨?_, rfl, rfl, rfl, ?_⟩
  · show (initState.emitted ++ List.replicate (0 + 3 * 6667) 1).length =
      8 * BUFFER_SIZE + 1
    rw [show initState.emitted = [] from rfl, List.nil_append,
      List.length_replicate]
    norm_num [BUFFER_SIZE]
  · show buf15 (0 + 3 * 6667) BUFFER_SIZE = 1
    decide

/-- C3: in encrypted mode no output is written before the discard pool
is primed.  This is the amended form of the claim: the first half (no
output while hash_loop is unset) holds for every input. -/
theorem C3_no_output_unprimed (cfg : Cfg) (input : List Nat)
    (he : cfg.encryption = true)
    (h : (run cfg input initState).hash_loop = 0) :
    (run cfg input initState).out = [] :=
  (run_EncOutInv cfg input initState he EncOutInv_initState).2 h

theorem C3_no_output_unprimed_witness :
    passEncryptCfg.encryption = true ∧
    (run passEncryptCfg [] initState).hash_loop = 0 ∧
    (run passEncryptCfg [] initState).out = [] :=
  ⟨rfl, rfl, C3_no_output_unprimed passEncryptCfg [] rfl rfl⟩

/-- C3 counterexample to the second half of the claim: a block accepted
while the pool is unprimed is dropped, not held.  On a concrete stream
one block is accepted before priming with no output; after priming
completes and a second block is accepted, exactly one chunk has been
delivered, so the first accepted block was never delivered. -/
theorem C3_unprimed_block_lost :
    ((run passEncryptCfg (List.replicate 6670 42) initState).accepted.length
        = 1 ∧
     (run passEncryptCfg (List.replicate 6670 42) initState).hash_loop = 0 ∧
     (run passEncryptCfg (List.replicate 6670 42) initState).out = []) ∧
    ((run passEncryptCfg
        (List.replicate 6670 42 ++
          (List.replicate 171 63 ++ List.replicate 6669 42))
        initState).hash_loop = 1 ∧
     (run passEncryptCfg
        (List.replicate 6670 42 ++
          (List.replicate 171 63 ++ List.replicate 6669 42))
        initState).accepted.length = 2 ∧
     (run passEncryptCfg
        (List.replicate 6670 42 ++
          (List.replicate 171 63 ++ List.replicate 6669 42))
        initState).out.length = 1) := by
  constructor
  · rw [run3_mid]
    refine ⟨?_, rfl, rfl⟩
    dsimp only [mid3]
    rw [show pre42.accepted = [] from rfl]
    rfl
  · rw [run_append, run3_mid]
    exact ⟨run3_end_facts.2.2, run3_end_facts.2.1, run3_end_facts.1⟩

/-- C4: the priming flag is set exactly once 8 * SHA512_DIGEST_LENGTH
discarded bits have been stored (the write cursor has completed a full
wrap of all digest byte positions), and once set it survives every
subsequent pipeline step (block resets and health-test failures
included). -/
theorem C4_priming_exact_and_monotone :
    (∀ bits : List Nat, (hashRun bits initState).hash_loop =
      if 8 * SHA512_DIGEST_LENGTH ≤ bits.length then 1 else 0) ∧
    (∀ (cfg : Cfg) (input : List Nat) (st : RtlState),
      st.hash_loop = 1 → (run cfg input st).hash_loop = 1) := by
  constructor
  · intro bits
    have h := (hashRun_counters bits initState 0 rfl rfl rfl).2.2
    rw [h]
    norm_num [SHA512_DIGEST_LENGTH]
  · exact fun cfg input st h => run_hash_loop_mono cfg input st h

theorem C4_priming_witness :
    (hashRun (List.replicate 512 1) initState).hash_loop = 1 ∧
    (run passEncryptCfg [42] { initState with hash_loop := 1 }).hash_loop
      = 1 := by
  constructor
  · rw [C4_priming_exact_and_monotone.1 (List.replicate 512 1)]
    norm_num [SHA512_DIGEST_LENGTH]
  · exact C4_priming_exact_and_monotone.2 passEncryptCfg [42]
      { initState with hash_loop := 1 } rfl

/-- C5: under bounded cursors and a passing health verdict for any block
completed during the byte, processing one raw sample byte emits exactly
the lower-indexed bit of each of the three non-overlapping 2-bit
windows whose bits differ, in window order, and sends to the discard
pool exactly the bit value of each window whose bits are equal.  This
is the amended form of the claim: the passing-verdict hypothesis is
needed because a failing verdict skips the remaining windows. -/
theorem C5_debias_per_byte (cfg : Cfg) (b : Nat) (st : RtlState)
    (h1 : st.bitcounter < 8) (h2 : st.buffercounter ≤ BUFFER_SIZE)
    (hf : cfg.fips st.fipsIndex = 0) :
    (process_byte cfg b st).emitted = st.emitted ++ keptBits b ∧
    (process_byte cfg b st).discarded = st.discarded ++ discardBits b :=
  process_byte_ghost cfg b st h1 h2 hf

theorem C5_debias_per_byte_witness :
    initState.bitcounter < 8 ∧ initState.buffercounter ≤ BUFFER_SIZE ∧
    passWhitenCfg.fips initState.fipsIndex = 0 ∧
    ((process_byte passWhitenCfg 42 initState).emitted =
      initState.emitted ++ keptBits 42 ∧
     (process_byte passWhitenCfg 42 initState).discarded =
      initState.discarded ++ discardBits 42) :=
  ⟨by decide, by decide, rfl,
   C5_debias_per_byte passWhitenCfg 42 initState (by decide) (by decide) rfl⟩

/-- C5 counterexample to the claim as stated (for every raw sample
byte): when the block completed inside a byte fails the health test,
the failure-reporting loop leaves j = N_FIPS_TESTS and the remaining
windows of that byte are skipped: 6670 bytes of 0x2A should contribute
3 bits each (20010), but only 20008 bits are emitted and the two
skipped windows send nothing to the discard pool either. -/
theorem C5_windows_skipped :
    keptBits 42 = [0, 0, 0] ∧
    (run failDetachCfg (List.replicate 6670 42) initState).emitted.length =
      20008 ∧
    (run failDetachCfg (List.replicate 6670 42) initState).discarded = [] ∧
    (20008 : Nat) ≠ 6670 * 3 := by
  refine ⟨by decide, ?_, runF_facts.2.2.2.1, by decide⟩
  rw [runF_facts.2.2.1]
  rw [List.length_replicate]

/-- C6: the encrypted delivery path writes exactly the encryption of the
accepted block under the key SHA512(discard pool contents at encryption
time), the key being derived fresh from the pool for this block, and
decrypting that ciphertext with the same key reproduces the accepted
block byte-for-byte. -/
theorem C6_enc_roundtrip (cfg : Cfg) (j : Nat) (st : RtlState)
    (ht : st.buffercounter > BUFFER_SIZE) (hf : cfg.fips st.fipsIndex = 0)
    (he : cfg.encryption = true) (hl : st.hash_loop ≠ 0) :
    (buffer_full_check cfg j st).1.out =
      st.out ++ [aes_encrypt_model (cfg.sha512 (hashChunk st))
        (blockChunk st)] ∧
    (buffer_full_check cfg j st).1.accepted = st.accepted ++ [blockChunk st] ∧
    aes_decrypt_model (cfg.sha512 (hashChunk st))
        (aes_encrypt_model (cfg.sha512 (hashChunk st)) (blockChunk st)) =
      blockChunk st := by
  refine ⟨?_, ?_, aes_roundtrip _ _⟩ <;>
    rw [buffer_full_pass_enc_primed cfg j st ht hf he hl]

theorem C6_enc_roundtrip_witness :
    encWitState.buffercounter > BUFFER_SIZE ∧
    passEncryptCfg.fips encWitState.fipsIndex = 0 ∧
    passEncryptCfg.encryption = true ∧
    encWitState.hash_loop ≠ 0 ∧
    ((buffer_full_check passEncryptCfg 0 encWitState).1.out =
      encWitState.out ++
        [aes_encrypt_model (passEncryptCfg.sha512 (hashChunk encWitState))
          (blockChunk encWitState)] ∧
     (buffer_full_check passEncryptCfg 0 encWitState).1.accepted =
      encWitState.accepted ++ [blockChunk encWitState] ∧
     aes_decrypt_model (passEncryptCfg.sha512 (hashChunk encWitState))
        (aes_encrypt_model (passEncryptCfg.sha512 (hashChunk encWitState))
          (blockChunk encWitState)) = blockChunk encWitState) :=
  ⟨by decide, rfl, rfl, by decide,
   C6_enc_roundtrip passEncryptCfg 0 encWitState (by decide) rfl rfl
     (by decide)⟩

/-- C7: on a failing health verdict the completed block is never
delivered (output and accepted blocks unchanged), the accumulator is
fully reset (every declared byte zero, cursor zero), the window
variable is left at N_FIPS_TESTS, and the failed sub-tests named by the
verdict bitmask are reported - but only when not running detached.
This is the amended form of the claim: when detached, nothing is
reported at all. -/
theorem C7_fail_handling (cfg : Cfg) (j : Nat) (st : RtlState)
    (ht : st.buffercounter > BUFFER_SIZE) (hf : cfg.fips st.fipsIndex ≠ 0) :
    (buffer_full_check cfg j st).1.out = st.out ∧
    (buffer_full_check cfg j st).1.accepted = st.accepted ∧
    (buffer_full_check cfg j st).1.logs = st.logs ++
      (if cfg.detach then []
       else (List.range N_FIPS_TESTS).filter
         (fun t => cfg.fips st.fipsIndex &&& fips_test_mask t ≠ 0)) ∧
    (buffer_full_check cfg j st).1.buffercounter = 0 ∧
    (∀ i, i < BUFFER_SIZE → (buffer_full_check cfg j st).1.bitbuffer i = 0) ∧
    (buffer_full_check cfg j st).2 = N_FIPS_TESTS := by
  rw [buffer_full_fail cfg j st ht hf]
  refine ⟨rfl, rfl, rfl, rfl, ?_, rfl⟩
  intro i hi
  dsimp only
  rw [if_pos hi]

theorem C7_fail_handling_witness :
    failWitState.buffercounter > BUFFER_SIZE ∧
    failLogCfg.fips failWitState.fipsIndex ≠ 0 ∧
    ((buffer_full_check failLogCfg 0 failWitState).1.out =
        failWitState.out ∧
     (buffer_full_check failLogCfg 0 failWitState).1.accepted =
        failWitState.accepted ∧
     (buffer_full_check failLogCfg 0 failWitState).1.logs =
        failWitState.logs ++
        (if failLogCfg.detach then []
         else (List.range N_FIPS_TESTS).filter
           (fun t =>
             failLogCfg.fips failWitState.fipsIndex &&& fips_test_mask t
               ≠ 0)) ∧
     (buffer_full_check failLogCfg 0 failWitState).1.buffercounter = 0 ∧
     (∀ i, i < BUFFER_SIZE →
       (buffer_full_check failLogCfg 0 failWitState).1.bitbuffer i = 0) ∧
     (buffer_full_check failLogCfg 0 failWitState).2 = N_FIPS_TESTS) :=
  ⟨by decide, by decide,
   C7_fail_handling failLogCfg 0 failWitState (by decide) (by decide)⟩

/-- C7 counterexample to the claim as stated (failing sub-tests always
reported): running detached, a block fails the health test (the battery
was consulted once and its verdict names sub-test 0), nothing is
delivered, and nothing at all is reported. -/
theorem C7_fail_unreported :
    (run failDetachCfg (List.replicate 6670 42) initState).fipsIndex = 1 ∧
    failDetachCfg.fips 0 ≠ 0 ∧
    (run failDetachCfg (List.replicate 6670 42) initState).logs = [] ∧
    (run failDetachCfg (List.replicate 6670 42) initState).out = [] ∧
    (run failDetachCfg (List.replicate 6670 42) initState).accepted = [] :=
  ⟨runF_facts.2.1, by decide, runF_facts.1, runF_facts.2.2.2.2.1,
   runF_facts.2.2.2.2.2⟩

/-- C8: on a pure 0b101010 stream every window keeps its lower bit and
nothing is ever discarded, so the pool cursors never advance, the pool
never primes, and encrypted mode produces no output for any stream
length; whitening mode does deliver (the amended part: only once
8 * (BUFFER_SIZE + 1) bits have accumulated, at 6670 input bytes, and
the chunk delivered for the first block is the all-zero previous
block). -/
theorem C8_biased_stream :
    keptBits 42 = [0, 0, 0] ∧ discardBits 42 = [] ∧
    (∀ n : Nat,
      (run passEncryptCfg (List.replicate n 42) initState).out = [] ∧
      (run passEncryptCfg (List.replicate n 42) initState).hash_loop = 0 ∧
      (run passEncryptCfg (List.replicate n 42) initState).hash_data_counter
        = 0 ∧
      (run passEncryptCfg
        (List.replicate n 42) initState).hash_data_bit_counter = 0) ∧
    (run passWhitenCfg (List.replicate 6670 42) initState).out =
      [List.replicate BUFFER_SIZE 0] := by
  refine ⟨by decide, by decide, ?_, runW_facts⟩
  intro n
  obtain ⟨a1, a2, a3, a4, a5⟩ :=
    run_42_enc_no_pool passEncryptCfg n initState rfl rfl rfl rfl rfl rfl
  exact ⟨a5, a3, a1, a2⟩

/-- C8 counterexample to the claim as stated (whitening output as soon
as one full block of debiased bits has accumulated): after 6667 bytes
of 0x2A, more than 8 * BUFFER_SIZE debiased bits are in, yet nothing
has been delivered and no block has even been health-tested. -/
theorem C8_whiten_delayed :
    8 * BUFFER_SIZE ≤
      (run passWhitenCfg (List.replicate 6667 42) initState).emitted.length ∧
    (run passWhitenCfg (List.replicate 6667 42) initState).out = [] ∧
    (run passWhitenCfg (List.replicate 6667 42) initState).accepted = [] := by
  rw [run_42 passWhitenCfg 6667 0 initState rfl rfl (by norm_num [BUFFER_SIZE])]
  refine ⟨?_, rfl, rfl⟩
  show 8 * BUFFER_SIZE ≤
    (initState.emitted ++ List.replicate (0 + 3 * 6667) 0).length
  rw [show initState.emitted = [] from rfl, List.nil_append,
    List.length_replicate]
  norm_num [BUFFER_SIZE]

/-- C9: the zero-ahead accumulator invariant - every declared buffer
byte strictly beyond the byte cursor is zero and every bit of the
cursor byte at or beyond the bit cursor is zero - holds initially and
is preserved by processing any byte stream in any configuration. -/
theorem C9_zero_ahead :
    ZeroInv initState ∧
    ∀ (cfg : Cfg) (input : List Nat) (st : RtlState),
      ZeroInv st → ZeroInv (run cfg input st) :=
  ⟨ZeroInv_initState, fun cfg input st h => run_ZeroInv cfg input st h⟩

theorem C9_zero_ahead_witness :
    ZeroInv (run passWhitenCfg (List.replicate 3 21) initState) :=
  C9_zero_ahead.2 passWhitenCfg (List.replicate 3 21) initState
    C9_zero_ahead.1

/-- C10: the discard-pool cursor bounds hash_data_counter <
SHA512_DIGEST_LENGTH and hash_data_bit_counter < 8 are preserved by
every store_hash_data call and hold after feeding any bit sequence from
startup, so every pool write indexes inside the digest-sized buffer. -/
theorem C10_pool_cursor_bounds :
    (∀ (bit : Nat) (st : RtlState),
      st.hash_data_counter < SHA512_DIGEST_LENGTH →
      st.hash_data_bit_counter < 8 →
      (store_hash_data bit st).hash_data_counter < SHA512_DIGEST_LENGTH ∧
      (store_hash_data bit st).hash_data_bit_counter < 8) ∧
    (∀ bits : List Nat,
      (hashRun bits initState).hash_data_counter < SHA512_DIGEST_LENGTH ∧
      (hashRun bits initState).hash_data_bit_counter < 8) :=
  ⟨fun bit st hc hk => store_hash_data_bounds bit st hc hk,
   fun bits => hashRun_bounds bits initState (by decide) (by decide)⟩

theorem C10_pool_cursor_bounds_witness :
    initState.hash_data_counter < SHA512_DIGEST_LENGTH ∧
    initState.hash_data_bit_counter < 8 ∧
    ((store_hash_data 1 initState).hash_data_counter <
        SHA512_DIGEST_LENGTH ∧
     (store_hash_data 1 initState).hash_data_bit_counter < 8) :=
  ⟨by decide, by decide,
   C10_pool_cursor_bounds.1 1 initState (by decide) (by decide)⟩

end BrfEntropy
